import Mathlib

/-!
Verification development for the cloudcost repository (littleworks-inc/cloudcost).

This file gives a shallow embedding, in Lean 4, of the cost-relevant core of the
repository: the report aggregation of `pkg/model/report.go`, the cost-calculation
pass of `internal/calculator/calculator.go`, the attribute-inference heuristics of
`internal/parser/analyzer.go` (together with the per-block resource construction of
`internal/parser/terraform/parser.go`), and the AWS price-resolution protocol of
`internal/pricing/aws/client.go`.

Modelling conventions:
- Go `float64` monetary amounts are embedded as exact rationals; the numeric
  facts settled here (fixed factors 730 and 8760, quantity weighting, the value
  16.936 and so on) are exact decimal statements.
- Go maps are embedded as association lists in insertion order; `m[k] += v` and
  `m[k] = v` become the `mapAdd` and `store` operations below, and map reads
  become `lookupA`. Where Go map iteration order is unspecified, the embedding
  iterates in list order; theorems that would depend on that order carry explicit
  hypotheses instead.
- Network and library collaborators (the AWS pricing API transport, JSON
  unmarshalling, `fmt.Sscanf` on catalog price strings) appear as data: a catalog
  entry records, dimension by dimension, whether its USD field is missing,
  unparseable, or a parsed amount, and the query operation is an oracle function
  from query inputs to responses. Wall-clock fields (timestamps) are dropped.
-/

namespace CloudCost

/-- Association-list lookup: the embedding of a Go map read `m[k]`.  Go maps
have unique keys, so first-match lookup is exact. -/
def lookupA {α : Type} : List (String × α) → String → Option α
  | [], _ => none
  | (k, v) :: rest, key => if k = key then some v else lookupA rest key

/-- The embedding of Go `m[k] += v` on a `map[string]float64`: if the key is
present its value is incremented in place, otherwise a new entry is created
(Go creates the entry at the zero value and then adds `v`). -/
def mapAdd : List (String × ℚ) → String → ℚ → List (String × ℚ)
  | [], k, v => [(k, v)]
  | (k', v') :: rest, k, v =>
      if k' = k then (k, v' + v) :: rest else (k', v') :: mapAdd rest k v

/-- The embedding of Go `m[k] = v` on a `map[string]int`: overwrite in place,
or append a new entry. -/
def store : List (String × Int) → String → Int → List (String × Int)
  | [], k, p => [(k, p)]
  | (k', p') :: rest, k, p =>
      if k' = k then (k, p) :: rest else (k', p') :: store rest k p

/-- The embedding of the Go tag-breakdown update
`if _, ok := m[key]; !ok { m[key] = make(...) }; m[key][value] += amt`. -/
def tagAdd : List (String × List (String × ℚ)) → String → String → ℚ →
    List (String × List (String × ℚ))
  | [], k, v, amt => [(k, [(v, amt)])]
  | (k', inner) :: rest, k, v, amt =>
      if k' = k then (k', mapAdd inner v amt) :: rest
      else (k', inner) :: tagAdd rest k v amt

/-- Nested lookup into the tag breakdown: `m[k][v]` when both levels exist. -/
def lookupTag (m : List (String × List (String × ℚ))) (k v : String) : Option ℚ :=
  match lookupA m k with
  | none => none
  | some inner => lookupA inner v

/-- `model.PricingDetails`, restricted to the fields the core reads and writes
(`Currency` and `PricingSource`); the wall-clock `LastUpdated` field is dropped. -/
structure PricingDetails where
  currency : String
  pricingSource : String
deriving DecidableEq

/-- `model.Resource`, restricted to the fields the core logic touches.
`Properties` holds opaque extra data; it is carried only so that frame
properties about it can be stated. -/
structure Resource where
  id : String
  name : String
  resourceType : String
  provider : String
  region : String
  size : String
  quantity : Int
  tags : List (String × String)
  properties : List (String × String)
  hourlyPrice : ℚ
  monthlyPrice : ℚ
  yearlyPrice : ℚ
  pricingDetails : Option PricingDetails
deriving DecidableEq

/-- `model.NewResource`: quantity 1, empty tags and properties. -/
def NewResource : Resource :=
  { id := "", name := "", resourceType := "", provider := "", region := "",
    size := "", quantity := 1, tags := [], properties := [],
    hourlyPrice := 0, monthlyPrice := 0, yearlyPrice := 0, pricingDetails := none }

/-- `Resource.CalculateDerivedPrices`: monthly and yearly prices are recomputed
from the hourly price only when the hourly price is strictly positive. -/
def Resource.calculateDerivedPrices (r : Resource) : Resource :=
  if r.hourlyPrice > 0 then
    { r with monthlyPrice := r.hourlyPrice * 730, yearlyPrice := r.hourlyPrice * 8760 }
  else r

/-- `model.Report`, restricted to the accumulator fields the aggregation logic
reads and writes, plus the resource list. -/
structure Report where
  resources : List Resource
  totalHourly : ℚ
  totalMonthly : ℚ
  totalYearly : ℚ
  byProvider : List (String × ℚ)
  byResourceType : List (String × ℚ)
  byRegion : List (String × ℚ)
  byTag : List (String × List (String × ℚ))
deriving DecidableEq

/-- `model.NewReport`, restricted to the modelled fields: everything empty. -/
def NewReport : Report :=
  { resources := [], totalHourly := 0, totalMonthly := 0, totalYearly := 0,
    byProvider := [], byResourceType := [], byRegion := [], byTag := [] }

/-- The shared accumulation body of `Report.AddResource` and the loop inside
`Report.Summarize` (the two Go bodies are textually identical): add
`price × quantity` to the three totals, add `monthlyPrice × quantity` to the
three keyed breakdowns, and add the same amount per tag pair. -/
def Report.accumulate (r : Report) (res : Resource) : Report :=
  { r with
    totalHourly := r.totalHourly + res.hourlyPrice * (res.quantity : ℚ)
    totalMonthly := r.totalMonthly + res.monthlyPrice * (res.quantity : ℚ)
    totalYearly := r.totalYearly + res.yearlyPrice * (res.quantity : ℚ)
    byProvider := mapAdd r.byProvider res.provider (res.monthlyPrice * (res.quantity : ℚ))
    byResourceType := mapAdd r.byResourceType res.resourceType (res.monthlyPrice * (res.quantity : ℚ))
    byRegion := mapAdd r.byRegion res.region (res.monthlyPrice * (res.quantity : ℚ))
    byTag := res.tags.foldl
      (fun m kv => tagAdd m kv.1 kv.2 (res.monthlyPrice * (res.quantity : ℚ))) r.byTag }

/-- `Report.AddResource`: append the resource and accumulate its contribution. -/
def Report.addResource (r : Report) (res : Resource) : Report :=
  { r.accumulate res with resources := r.resources ++ [res] }

/-- The reset block at the top of `Report.Summarize`: zero the totals and
replace all four breakdown maps with fresh empty ones. -/
def Report.reset (r : Report) : Report :=
  { r with totalHourly := 0, totalMonthly := 0, totalYearly := 0,
           byProvider := [], byResourceType := [], byRegion := [], byTag := [] }

/-- `Report.Summarize`: reset the totals and all four breakdown maps, then
re-accumulate every resource of the current resource list. -/
def Report.summarize (r : Report) : Report :=
  r.resources.foldl Report.accumulate r.reset

/-- The `pricing.Client.GetPrice` contract as the calculator sees it: the
(possibly mutated) resource together with an optional error. -/
def PricingClient : Type := Resource → Resource × Option String

/-- The per-resource body of `Calculator.CalculateCosts`: look up the pricing
client for the provider; with no client, or when `GetPrice` errors, the
resource is kept in the list but skipped by the totals and breakdowns
(`continue`); otherwise its prices are added, without quantity weighting. -/
def calcStep (clients : List (String × PricingClient)) (acc : Report) (res : Resource) :
    Report :=
  match lookupA clients res.provider with
  | none => { acc with resources := acc.resources ++ [res] }
  | some getPriceFn =>
      match getPriceFn res with
      | (res', some _) => { acc with resources := acc.resources ++ [res'] }
      | (res', none) =>
          { acc with
            resources := acc.resources ++ [res']
            totalHourly := acc.totalHourly + res'.hourlyPrice
            totalMonthly := acc.totalMonthly + res'.monthlyPrice
            totalYearly := acc.totalYearly + res'.yearlyPrice
            byProvider := mapAdd acc.byProvider res'.provider res'.monthlyPrice
            byResourceType := mapAdd acc.byResourceType res'.resourceType res'.monthlyPrice
            byRegion := mapAdd acc.byRegion res'.region res'.monthlyPrice }

/-- `Calculator.CalculateCosts`: fold the per-resource step over the input
resource list, starting from a fresh report; the Go function always returns a
nil error, which the second component records. -/
def CalculateCosts (clients : List (String × PricingClient)) (resources : List Resource) :
    Report × Option String :=
  (resources.foldl (calcStep clients) NewReport, none)

/-- An HCL attribute value as `getExprStringValue` / `FindQuantity` /
`ExtractTags` observe it: a plain string, a number, a string-to-string
mapping, or anything else. -/
inductive AttrValue where
  | str (s : String)
  | num (q : ℚ)
  | mapv (pairs : List (String × String))
  | other
deriving DecidableEq

/-- `getExprStringValue`: a value is usable only when it is a plain string. -/
def getStr : AttrValue → Option String
  | AttrValue.str s => some s
  | _ => none

/-- Whether `needle` is a prefix of `hay`, on character lists. -/
def listStarts : List Char → List Char → Bool
  | _, [] => true
  | [], _ :: _ => false
  | h :: t, nh :: nt => h = nh && listStarts t nt

/-- Whether `needle` occurs contiguously in `hay`, on character lists. -/
def listHasSub (hay needle : List Char) : Bool :=
  match hay with
  | [] => needle.isEmpty
  | c :: t => listStarts (c :: t) needle || listHasSub t needle

/-- `strings.Contains`: substring occurrence. -/
def containsSub (s sub : String) : Bool :=
  listHasSub s.toList sub.toList

/-- Whether `suf` is a suffix of `hay`, on character lists. -/
def listEnds (hay suf : List Char) : Bool :=
  listStarts hay.reverse suf.reverse

/-- `strings.HasSuffix`. -/
def strEndsWith (s suf : String) : Bool :=
  listEnds s.toList suf.toList

/-- `strings.HasPrefix`. -/
def strStartsWith (s pre : String) : Bool :=
  listStarts s.toList pre.toList

/-- `strings.Split` restricted to a one-character separator, on character
lists: separator occurrences delimit the (possibly empty) segments. -/
def splitOnChar (sep : Char) : List Char → List (List Char)
  | [] => [[]]
  | c :: t =>
      if c = sep then [] :: splitOnChar sep t
      else
        match splitOnChar sep t with
        | h :: r => (c :: h) :: r
        | [] => [[c]]

/-- `strings.Split` with a one-character separator, producing strings. -/
def strSplitOn (sep : Char) (s : String) : List String :=
  (splitOnChar sep s.toList).map (fun cs => String.mk cs)

/-- `strings.ToLower`, modelled as per-character ASCII lowering. -/
def strToLower (s : String) : String :=
  String.mk (s.toList.map Char.toLower)

/-- The ordered size-pattern table of `FindSizeField`. -/
def sizePatterns : List (String × Int) :=
  [("instance_type", 100), ("_type", 90), ("machine_type", 85), ("size", 80),
   ("instance_class", 75), ("_class", 70), ("_tier", 65), ("_size", 60),
   ("node_type", 55), ("bundle_id", 50), ("sku_name", 45), ("flavor", 40)]

/-- Whether a character is an ASCII letter, as tested by the Go loop in
`looksLikeInstanceType`. -/
def isLetterChar (c : Char) : Bool :=
  (('a' ≤ c && c ≤ 'z') || ('A' ≤ c && c ≤ 'Z'))

/-- Whether a character is an ASCII digit, as tested by the Go loop in
`looksLikeInstanceType`. -/
def isDigitChar (c : Char) : Bool :=
  ('0' ≤ c && c ≤ '9')

/-- The AWS-style branch of `looksLikeInstanceType`: a dot-separated value of
length at least 4 whose first segment has length at least 2 and mixes a letter
with a digit (for example `t2.micro`). -/
def awsInstanceShape (value : String) : Bool :=
  value.toList.contains '.' && decide (value.length ≥ 4) &&
    (let parts := strSplitOn '.' value
     decide (parts.length ≥ 2) &&
       (let first := parts.headD ""
        decide (first.length ≥ 2) && first.toList.any isLetterChar &&
          first.toList.any isDigitChar))

/-- The size-word suffixes recognised by `looksLikeInstanceType`. -/
def sizeSuffixes : List String :=
  ["small", "medium", "large", "xlarge", "2xlarge", "micro", "nano"]

/-- `looksLikeInstanceType`: AWS dot shape, Azure `Standard_` shape, a
hyphenated shape with at least two segments, or a known size-word suffix. -/
def looksLikeInstanceType (value : String) : Bool :=
  awsInstanceShape value ||
  (strStartsWith value "Standard_" && value.toList.contains '_') ||
  (value.toList.contains '-' && decide ((strSplitOn '-' value).length ≥ 2)) ||
  sizeSuffixes.any (fun suf => strEndsWith value suf || strEndsWith value ("." ++ suf))

/-- The body of one pass-1 iteration of `FindSizeField`: when the attribute
name equals the pattern or ends with it and the value is a non-empty plain
string, store that value at the pattern priority (a Go map assignment, so a
later store overwrites an earlier one). -/
def passPatStep (pat : String × Int) (m : List (String × Int)) (a : String × AttrValue) :
    List (String × Int) :=
  if a.1 = pat.1 || strEndsWith a.1 pat.1 then
    match getStr a.2 with
    | some v => if v ≠ "" then store m v pat.2 else m
    | none => m
  else m

/-- One pattern round of the first pass of `FindSizeField`: the step above,
folded over every attribute. -/
def passPat (attrs : List (String × AttrValue)) (pat : String × Int)
    (m : List (String × Int)) : List (String × Int) :=
  attrs.foldl (passPatStep pat) m

/-- The first pass of `FindSizeField`: the pattern rounds, in table order. -/
def pass1 (attrs : List (String × AttrValue)) : List (String × Int) :=
  sizePatterns.foldl (fun m pat => passPat attrs pat m) []

/-- The body of one pass-2 iteration of `FindSizeField`: a non-empty plain
string value that looks like an instance type is stored at priority 75 when
the attribute name contains a size-related keyword, else 30 — again
overwriting any earlier priority for the same value. -/
def pass2Step (m : List (String × Int)) (a : String × AttrValue) :
    List (String × Int) :=
  match getStr a.2 with
  | some v =>
      if v ≠ "" && looksLikeInstanceType v then
        store m v
          (if containsSub a.1 "instance" || containsSub a.1 "type" ||
              containsSub a.1 "size" || containsSub a.1 "class" then 75 else 30)
      else m
  | none => m

/-- The second pass of `FindSizeField`: the pass-2 step folded over every
attribute. -/
def pass2 (attrs : List (String × AttrValue)) (m : List (String × Int)) :
    List (String × Int) :=
  attrs.foldl pass2Step m

/-- `ResourceAnalyzer.FindSizeField`: run both passes, then pick the candidate
with the strictly highest priority (iteration in insertion order, starting from
best priority `-1` and the empty string). -/
def FindSizeField (resourceType : String) (attrs : List (String × AttrValue)) : String :=
  ((pass2 attrs (pass1 attrs)).foldl
      (fun best c => if c.2 > best.2 then c else best) ("", -1)).1

/-- The direct region field names tried first by `FindRegionField`. -/
def regionFields : List String :=
  ["region", "location", "zone", "availability_zone"]

/-- `fmt.Sscanf(s, "%d", ...)` succeeds exactly when the string begins with an
optional sign followed by a digit. -/
def parsesAsInt (s : String) : Bool :=
  match s.toList with
  | [] => false
  | '-' :: rest => (rest.headD ' ').isDigit
  | '+' :: rest => (rest.headD ' ').isDigit
  | c :: _ => c.isDigit

/-- The AWS branch of `looksLikeRegion`: exactly two hyphens, total length at
least 7, three segments with a 2-character first segment, a second segment of
length at least 4, and an integer-parsing third segment (`us-east-1`). -/
def awsRegionShape (value : String) : Bool :=
  decide (value.toList.count '-' = 2) && decide (value.length ≥ 7) &&
    (let parts := strSplitOn '-' value
     decide (parts.length = 3) && decide ((parts.headD "").length = 2) &&
       decide ((parts.getD 1 "").length ≥ 4) && parsesAsInt (parts.getD 2 ""))

/-- The fixed list of well-known Azure region codes in `looksLikeRegion`. -/
def commonAzureRegions : List String :=
  ["eastus", "westus", "centralus", "northeurope", "westeurope",
   "eastasia", "southeastasia", "australiaeast"]

/-- The Azure branch of `looksLikeRegion`: a case-insensitive match against the
fixed region-code list (`strings.EqualFold`, modelled as lower-case equality). -/
def knownAzureRegion (value : String) : Bool :=
  commonAzureRegions.any (fun r => strToLower value = strToLower r)

/-- The GCP branch of `looksLikeRegion`: exactly one hyphen, ending in the
character `1`, two segments whose first has length 2 or more than 4. -/
def gcpRegionShape (value : String) : Bool :=
  decide (value.toList.count '-' = 1) && strEndsWith value "1" &&
    (let parts := strSplitOn '-' value
     decide (parts.length = 2) &&
       (decide ((parts.headD "").length = 2) || decide ((parts.headD "").length > 4)))

/-- `ResourceAnalyzer.looksLikeRegion`: the three shape branches in order. -/
def looksLikeRegion (value : String) : Bool :=
  awsRegionShape value || knownAzureRegion value || gcpRegionShape value

/-- Phase (a) of `FindRegionField`: try the direct field names in order; an
entry whose value is not a non-empty plain string is skipped. -/
def regionPhaseA (attrs : List (String × AttrValue)) : List String → Option String
  | [] => none
  | f :: rest =>
      match lookupA attrs f with
      | some v =>
          match getStr v with
          | some s => if s ≠ "" then some s else regionPhaseA attrs rest
          | none => regionPhaseA attrs rest
      | none => regionPhaseA attrs rest

/-- Phase (b) of `FindRegionField`: the first attribute whose lower-cased name
contains `region`, `location` or `zone` and whose value is a non-empty plain
string. -/
def regionPhaseB : List (String × AttrValue) → Option String
  | [] => none
  | (n, v) :: rest =>
      if containsSub (strToLower n) "region" || containsSub (strToLower n) "location" ||
          containsSub (strToLower n) "zone" then
        match getStr v with
        | some s => if s ≠ "" then some s else regionPhaseB rest
        | none => regionPhaseB rest
      else regionPhaseB rest

/-- Phase (c) of `FindRegionField`: the first non-empty plain string value that
looks like a region. -/
def regionPhaseC : List (String × AttrValue) → Option String
  | [] => none
  | (_, v) :: rest =>
      match getStr v with
      | some s => if s ≠ "" && looksLikeRegion s then some s else regionPhaseC rest
      | none => regionPhaseC rest

/-- `ResourceAnalyzer.FindRegionField`: the three phases in order; empty when
none matches. -/
def FindRegionField (resourceType : String) (attrs : List (String × AttrValue)) : String :=
  match regionPhaseA attrs regionFields with
  | some s => s
  | none =>
      match regionPhaseB attrs with
      | some s => s
      | none =>
          match regionPhaseC attrs with
          | some s => s
          | none => ""

/-- `ResourceAnalyzer.FindQuantity`: a numeric `count` attribute greater than
zero is truncated to an integer (`int(f)`, which is the floor for a positive
value); otherwise 1. -/
def FindQuantity (attrs : List (String × AttrValue)) : Int :=
  match lookupA attrs "count" with
  | some (AttrValue.num q) => if q > 0 then q.floor else 1
  | _ => 1

/-- `ResourceAnalyzer.ExtractTags`: the string-to-string entries of a `tags`
attribute; an empty mapping otherwise. -/
def ExtractTags (attrs : List (String × AttrValue)) : List (String × String) :=
  match lookupA attrs "tags" with
  | some (AttrValue.mapv pairs) => pairs
  | _ => []

/-- The explicit size fallback in the terraform parser loop, used when the
analyzer found no size: every attribute named `instance_type` or `size` with a
plain string value overwrites the size (iteration in list order). -/
def fallbackSize (attrs : List (String × AttrValue)) : String :=
  attrs.foldl
    (fun acc a =>
      match getStr a.2 with
      | some s => if a.1 = "instance_type" || a.1 = "size" then s else acc
      | none => acc) ""

/-- The explicit region fallback in the terraform parser loop: a plain string
`region` attribute, empty otherwise. -/
def fallbackRegion (attrs : List (String × AttrValue)) : String :=
  match lookupA attrs "region" with
  | some v => (getStr v).getD ""
  | none => ""

/-- The per-resource-block body of `terraform.Parser.Parse`: build a resource
from its type, name and attribute map, running the analyzer inferences, the
explicit fallbacks, and the final quantity clamp. -/
def buildResource (resourceType resourceName : String)
    (attrs : List (String × AttrValue)) : Resource :=
  let size0 := FindSizeField resourceType attrs
  let region0 := FindRegionField resourceType attrs
  let q0 := FindQuantity attrs
  { NewResource with
    id := resourceType ++ "." ++ resourceName
    name := resourceName
    resourceType := resourceType
    provider := ((strSplitOn '_' resourceType).headD "")
    size := if size0 = "" then fallbackSize attrs else size0
    region := if region0 = "" then fallbackRegion attrs else region0
    quantity := if q0 < 1 then 1 else q0
    tags := ExtractTags attrs }

/-- The `USD` entry of one price dimension, as the scan observes it after JSON
navigation and `fmt.Sscanf`: the field (or any enclosing object) is missing,
the string does not parse as a decimal, or it parses to an amount. -/
inductive UsdField where
  | missing
  | unparseable
  | amount (q : ℚ)
deriving DecidableEq

/-- One price dimension of an on-demand term. -/
structure PriceDimension where
  usd : UsdField
deriving DecidableEq

/-- One catalog entry of a `GetProducts` price list: either it fails JSON
unmarshalling or lacks the `terms`/`OnDemand` objects, or it carries a list of
on-demand terms, each with an optional `priceDimensions` list. -/
inductive PriceEntry where
  | malformed
  | withTerms (onDemand : List (Option (List PriceDimension)))
deriving DecidableEq

/-- One term-match filter of a pricing query. -/
structure Filter where
  field : String
  value : String
deriving DecidableEq

/-- A `GetProducts` request: service code, filter list and result limit. -/
structure QueryInput where
  serviceCode : String
  filters : List Filter
  maxResults : Int
deriving DecidableEq

/-- A `GetProducts` response: a transport error or an ordered price list. -/
inductive QueryResult where
  | transportError (msg : String)
  | ok (priceList : List PriceEntry)
deriving DecidableEq

/-- The outcome of the client's lazy setup handshake (configuration loading
plus the `DescribeServices` probe): success, or a terminal error message. -/
inductive InitResult where
  | ok
  | fail (msg : String)
deriving DecidableEq

/-- The external AWS world: the setup outcome and the catalog query oracle.
The oracle is a pure function, so a retried query returns the same response
on every attempt. -/
structure AwsEnv where
  initResult : InitResult
  query : QueryInput → QueryResult

/-- The `aws.Client` adapter state: the `initialized` flag and the cached
setup error. -/
structure ClientState where
  initDone : Bool
  errorMsg : Option String
deriving DecidableEq

/-- `aws.NewClient`: not yet set up, no cached error. -/
def newClientState : ClientState :=
  { initDone := false, errorMsg := none }

/-- Everything one `GetPrice` call produces: the adapter state after the call,
the resource after mutation, the returned error, and the `GetProducts` calls
issued on the network, in order. -/
structure PriceOutcome where
  state : ClientState
  resource : Resource
  err : Option String
  calls : List QueryInput
deriving DecidableEq

/-- A pricing-details record with USD currency and the given source label. -/
def mkDetails (src : String) : PricingDetails :=
  { currency := "USD", pricingSource := src }

/-- Set the three price fields to zero, as the error paths of `GetPrice` do. -/
def zeroPriced (res : Resource) : Resource :=
  { res with hourlyPrice := 0, monthlyPrice := 0, yearlyPrice := 0 }

/-- Price a resource at an hourly amount with the fixed 730/8760 derivation. -/
def pricedAt (res : Resource) (q : ℚ) : Resource :=
  { res with hourlyPrice := q, monthlyPrice := q * 730, yearlyPrice := q * 8760 }

/-- Record an error diagnostic in the pricing details, as the error paths of
`GetPrice` do. -/
def errDetails (res : Resource) (msg : String) : Resource :=
  { res with pricingDetails := some (mkDetails ("Error: " ++ msg)) }

/-- `buildEC2Filters`: service code, optional region, optional instance type,
and the fixed operating-system and tenancy dimensions. -/
def buildEC2Filters (instanceType region : String) : List Filter :=
  [{ field := "ServiceCode", value := "AmazonEC2" }]
    ++ (if region ≠ "" then [{ field := "regionCode", value := region }] else [])
    ++ (if instanceType ≠ "" then [{ field := "instanceType", value := instanceType }] else [])
    ++ [{ field := "operatingSystem", value := "Linux" },
        { field := "tenancy", value := "Shared" }]

/-- `buildRDSFilters`: service code, optional region, optional instance type,
and the fixed database-engine dimension. -/
def buildRDSFilters (instanceType region : String) : List Filter :=
  [{ field := "ServiceCode", value := "AmazonRDS" }]
    ++ (if region ≠ "" then [{ field := "regionCode", value := region }] else [])
    ++ (if instanceType ≠ "" then [{ field := "instanceType", value := instanceType }] else [])
    ++ [{ field := "databaseEngine", value := "MySQL" }]

/-- `buildElastiCacheFilters`: service code, optional region, optional cache
node type. -/
def buildElastiCacheFilters (instanceType region : String) : List Filter :=
  [{ field := "ServiceCode", value := "AmazonElastiCache" }]
    ++ (if region ≠ "" then [{ field := "regionCode", value := region }] else [])
    ++ (if instanceType ≠ "" then [{ field := "cacheNodeType", value := instanceType }] else [])

/-- Scan a dimension list for the first parseable amount, positive or not —
the tier-1 inner loop, which breaks on the first successful parse. -/
def scanDimsAny : List PriceDimension → Option ℚ
  | [] => none
  | d :: rest =>
      match d.usd with
      | UsdField.amount q => some q
      | _ => scanDimsAny rest

/-- Scan the on-demand terms for the first parseable amount; a term without a
`priceDimensions` object is skipped. -/
def scanTermsAny : List (Option (List PriceDimension)) → Option ℚ
  | [] => none
  | none :: rest => scanTermsAny rest
  | some dims :: rest =>
      match scanDimsAny dims with
      | some q => some q
      | none => scanTermsAny rest

/-- Scan one catalog entry for the first parseable amount. -/
def scanEntryAny : PriceEntry → Option ℚ
  | PriceEntry.malformed => none
  | PriceEntry.withTerms ts => scanTermsAny ts

/-- Scan a price list, in order, for the first entry yielding a parseable
amount (the caller applies the five-entry limit with `List.take`). -/
def scanFirstAny : List PriceEntry → Option ℚ
  | [] => none
  | e :: rest =>
      match scanEntryAny e with
      | some q => some q
      | none => scanFirstAny rest

/-- Scan a dimension list for the first amount that parses and is strictly
positive — the tier-2 and t3.small inner loops. -/
def scanDimsPos : List PriceDimension → Option ℚ
  | [] => none
  | d :: rest =>
      match d.usd with
      | UsdField.amount q => if q > 0 then some q else scanDimsPos rest
      | _ => scanDimsPos rest

/-- Scan the on-demand terms for the first strictly positive amount. -/
def scanTermsPos : List (Option (List PriceDimension)) → Option ℚ
  | [] => none
  | none :: rest => scanTermsPos rest
  | some dims :: rest =>
      match scanDimsPos dims with
      | some q => some q
      | none => scanTermsPos rest

/-- Scan one catalog entry for the first strictly positive amount. -/
def scanEntryPos : PriceEntry → Option ℚ
  | PriceEntry.malformed => none
  | PriceEntry.withTerms ts => scanTermsPos ts

/-- Scan a price list, in order, for the first entry yielding a strictly
positive amount. -/
def scanFirstPos : List PriceEntry → Option ℚ
  | [] => none
  | e :: rest =>
      match scanEntryPos e with
      | some q => some q
      | none => scanFirstPos rest

/-- The fixed t3.small comparison query of the zero-price special case. -/
def t3SmallQuery : QueryInput :=
  { serviceCode := "AmazonEC2",
    filters := [{ field := "ServiceCode", value := "AmazonEC2" },
                { field := "instanceType", value := "t3.small" },
                { field := "operatingSystem", value := "Linux" }],
    maxResults := 10 }

/-- The t3.micro zero-price special case: look up t3.small over the whole
returned price list (no five-entry limit there) for a strictly positive
amount, and on success synthesize half of it, relabelling the diagnostic
source; otherwise keep the zero price. -/
def t3MicroCase (env : AwsEnv) (st : ClientState) (res1 : Resource) (q1 : QueryInput) :
    PriceOutcome :=
  match env.query t3SmallQuery with
  | QueryResult.ok l =>
      if l.isEmpty then
        { state := st, resource := pricedAt res1 0, err := none, calls := [q1, t3SmallQuery] }
      else
        match scanFirstPos l with
        | some p =>
            { state := st,
              resource := { pricedAt res1 (p * (1/2)) with
                pricingDetails :=
                  some (mkDetails "Estimated based on t3.small pricing (50% ratio)") },
              err := none, calls := [q1, t3SmallQuery] }
        | none =>
            { state := st, resource := pricedAt res1 0, err := none, calls := [q1, t3SmallQuery] }
  | QueryResult.transportError _ =>
      { state := st, resource := pricedAt res1 0, err := none, calls := [q1, t3SmallQuery] }

/-- The tier-1 result scan of `GetPrice`, entered when the price list is
non-empty: the pricing details are set to the catalog source up front, then up
to the first five entries are scanned for the first parseable amount; finding
none is a terminal failure, finding zero for a t3.micro triggers the special
case. -/
def tier1Scan (env : AwsEnv) (st : ClientState) (res : Resource)
    (q1 : QueryInput) (priceList : List PriceEntry) : PriceOutcome :=
  let res1 := { res with pricingDetails := some (mkDetails "AWS Pricing API") }
  match scanFirstAny (priceList.take 5) with
  | none =>
      { state := st, resource := zeroPriced res1,
        err := some "could not extract price from API response", calls := [q1] }
  | some q =>
      if res.size = "t3.micro" && q = 0 then
        t3MicroCase env st res1 q1
      else
        { state := st, resource := pricedAt res1 q, err := none, calls := [q1] }

/-- The service-specific size-filter field of the tier-2 relaxed query. -/
def sizeFieldName (serviceCode : String) : String :=
  match serviceCode with
  | "AmazonEC2" => "instanceType"
  | "AmazonRDS" => "instanceType"
  | "AmazonElastiCache" => "cacheNodeType"
  | _ => "instanceType"

/-- The minimal (relaxed) tier-2 query: the service code filter plus, when the
size is known, the service-specific size field filter. -/
def relaxedQuery (serviceCode : String) (res : Resource) : QueryInput :=
  { serviceCode := serviceCode,
    filters := [({ field := "ServiceCode", value := serviceCode } : Filter)]
      ++ (if res.size ≠ "" then
            [({ field := sizeFieldName serviceCode, value := res.size } : Filter)]
          else []),
    maxResults := 100 }

/-- The tier-2 relaxed query of `GetPrice`, entered when the tier-1 price list
was empty and the original filter set had more than two filters: re-query with
the minimal relaxed filter set, and accept only a strictly positive amount
among the first five entries. -/
def tier2 (env : AwsEnv) (st : ClientState) (res : Resource)
    (serviceCode : String) (q1 : QueryInput) : PriceOutcome :=
  let q2 : QueryInput := relaxedQuery serviceCode res
  match env.query q2 with
  | QueryResult.ok l =>
      if l.isEmpty then
        { state := st, resource := zeroPriced res,
          err := some ("no pricing data found for resource: " ++ res.id), calls := [q1, q2] }
      else
        match scanFirstPos (l.take 5) with
        | some q =>
            let res2 :=
              match res.pricingDetails with
              | none => { res with
                  pricingDetails := some (mkDetails "AWS Pricing API (simplified query)") }
              | some _ => res
            { state := st, resource := pricedAt res2 q, err := none, calls := [q1, q2] }
        | none =>
            { state := st, resource := zeroPriced res,
              err := some ("no valid pricing found for resource: " ++ res.id),
              calls := [q1, q2] }
  | QueryResult.transportError _ =>
      { state := st, resource := zeroPriced res,
        err := some ("no pricing data found for resource: " ++ res.id), calls := [q1, q2] }

/-- The service-specific part of `GetPrice`: issue the exact query with up to
three attempts (a pure oracle, so a failing query fails all three identically),
then scan a non-empty result, or fall back to the relaxed tier, or fail. -/
def getPriceWithService (env : AwsEnv) (st : ClientState) (res : Resource)
    (serviceCode : String) (filters : List Filter) : PriceOutcome :=
  let q1 : QueryInput := { serviceCode := serviceCode, filters := filters, maxResults := 100 }
  match env.query q1 with
  | QueryResult.transportError msg =>
      { state := st, resource := errDetails (zeroPriced res) msg,
        err := some ("failed to get pricing data: " ++ msg), calls := [q1, q1, q1] }
  | QueryResult.ok priceList =>
      if priceList.isEmpty then
        if filters.length > 2 then
          tier2 env st res serviceCode q1
        else
          { state := st, resource := zeroPriced res,
            err := some ("no pricing data found for resource: " ++ res.id), calls := [q1] }
      else
        tier1Scan env st res q1 priceList

/-- The post-setup body of `GetPrice`: classify the resource type by prefix
into a service code and filter builder, or fail with no network call. -/
def getPriceReady (env : AwsEnv) (st : ClientState) (res : Resource) : PriceOutcome :=
  let region := if res.region = "" then "us-east-1" else res.region
  if strStartsWith res.resourceType "aws_instance" then
    getPriceWithService env st res "AmazonEC2" (buildEC2Filters res.size region)
  else if strStartsWith res.resourceType "aws_db_instance" then
    getPriceWithService env st res "AmazonRDS" (buildRDSFilters res.size region)
  else if strStartsWith res.resourceType "aws_elasticache" then
    getPriceWithService env st res "AmazonElastiCache" (buildElastiCacheFilters res.size region)
  else
    { state := st, resource := zeroPriced res,
      err := some ("unsupported resource type for pricing: " ++ res.resourceType), calls := [] }

/-- `aws.Client.GetPrice`: run the lazy setup when not yet attempted (setting
the flag first, so a failure is cached as terminal), short-circuit on a cached
setup error, and otherwise run the query protocol. -/
def getPrice (env : AwsEnv) (st : ClientState) (res : Resource) : PriceOutcome :=
  if st.initDone = false then
    match env.initResult with
    | InitResult.fail msg =>
        { state := { initDone := true, errorMsg := some msg },
          resource := errDetails (zeroPriced res) msg,
          err := some ("AWS pricing data unavailable: " ++ msg), calls := [] }
    | InitResult.ok =>
        getPriceReady env { initDone := true, errorMsg := none } res
  else
    match st.errorMsg with
    | some e =>
        { state := st, resource := errDetails (zeroPriced res) e,
          err := some ("AWS pricing data unavailable: " ++ e), calls := [] }
    | none => getPriceReady env st res

/-- Equality of all identification and inference fields of two resources —
every field except the three prices and the pricing details. -/
def sameIdentity (a b : Resource) : Prop :=
  a.id = b.id ∧ a.name = b.name ∧ a.resourceType = b.resourceType ∧
  a.provider = b.provider ∧ a.region = b.region ∧ a.size = b.size ∧
  a.quantity = b.quantity ∧ a.tags = b.tags ∧ a.properties = b.properties

/-- The price-consistency invariant of the data model: the three price fields
are all zero, or monthly and yearly are derived from the hourly price by the
fixed factors 730 and 8760. -/
def priceInvariant (r : Resource) : Prop :=
  (r.hourlyPrice = 0 ∧ r.monthlyPrice = 0 ∧ r.yearlyPrice = 0) ∨
  (r.monthlyPrice = r.hourlyPrice * 730 ∧ r.yearlyPrice = r.hourlyPrice * 8760)

theorem sameIdentity_refl (a : Resource) : sameIdentity a a := by
  refine ⟨rfl, rfl, rfl, rfl, rfl, rfl, rfl, rfl, rfl⟩

theorem sameIdentity_trans {a b c : Resource}
    (h1 : sameIdentity a b) (h2 : sameIdentity b c) : sameIdentity a c := by
  obtain ⟨e1, e2, e3, e4, e5, e6, e7, e8, e9⟩ := h1
  obtain ⟨f1, f2, f3, f4, f5, f6, f7, f8, f9⟩ := h2
  exact ⟨e1.trans f1, e2.trans f2, e3.trans f3, e4.trans f4, e5.trans f5,
    e6.trans f6, e7.trans f7, e8.trans f8, e9.trans f9⟩

theorem sameIdentity_zeroPriced (r : Resource) : sameIdentity (zeroPriced r) r := by
  exact sameIdentity_refl r

theorem sameIdentity_pricedAt (r : Resource) (q : ℚ) : sameIdentity (pricedAt r q) r := by
  exact sameIdentity_refl r

theorem sameIdentity_errDetails (r : Resource) (m : String) :
    sameIdentity (errDetails r m) r := by
  exact sameIdentity_refl r

theorem t3MicroCase_frame (env : AwsEnv) (st : ClientState) (res1 : Resource)
    (q1 : QueryInput) : sameIdentity (t3MicroCase env st res1 q1).resource res1 := by
  unfold t3MicroCase
  rcases env.query t3SmallQuery with msg | l
  · exact sameIdentity_refl res1
  · simp only
    split
    · exact sameIdentity_refl res1
    · rcases h : scanFirstPos l with _ | p
      · simp only [h]
        exact sameIdentity_refl res1
      · simp only [h]
        exact sameIdentity_refl res1

theorem tier1Scan_frame (env : AwsEnv) (st : ClientState) (res : Resource)
    (q1 : QueryInput) (priceList : List PriceEntry) :
    sameIdentity (tier1Scan env st res q1 priceList).resource res := by
  unfold tier1Scan
  rcases h : scanFirstAny (priceList.take 5) with _ | q
  · simp only [h]
    exact sameIdentity_refl res
  · simp only [h]
    split
    · exact sameIdentity_trans
        (t3MicroCase_frame env st { res with pricingDetails := some (mkDetails "AWS Pricing API") } q1)
        (sameIdentity_refl res)
    · exact sameIdentity_refl res

theorem tier2_frame (env : AwsEnv) (st : ClientState) (res : Resource)
    (serviceCode : String) (q1 : QueryInput) :
    sameIdentity (tier2 env st res serviceCode q1).resource res := by
  unfold tier2
  simp only
  split
  · split
    · exact sameIdentity_refl res
    · rcases h : scanFirstPos _ with _ | q
      · exact sameIdentity_refl res
      · rcases hd : res.pricingDetails with _ | d
        · simp only [hd]
          exact sameIdentity_refl res
        · simp only [hd]
          exact sameIdentity_refl res
  · exact sameIdentity_refl res

theorem getPriceWithService_frame (env : AwsEnv) (st : ClientState) (res : Resource)
    (serviceCode : String) (filters : List Filter) :
    sameIdentity (getPriceWithService env st res serviceCode filters).resource res := by
  unfold getPriceWithService
  simp only
  split
  · exact sameIdentity_refl res
  · split
    · split
      · exact tier2_frame env st res serviceCode _
      · exact sameIdentity_refl res
    · exact tier1Scan_frame env st res _ _

theorem getPriceReady_frame (env : AwsEnv) (st : ClientState) (res : Resource) :
    sameIdentity (getPriceReady env st res).resource res := by
  unfold getPriceReady
  simp only
  split
  · exact getPriceWithService_frame env st res _ _
  · split
    · exact getPriceWithService_frame env st res _ _
    · split
      · exact getPriceWithService_frame env st res _ _
      · exact sameIdentity_refl res

/-- C10: on every path through `GetPrice` — cached-failure short circuit, setup
failure, unsupported resource type, transport failure, either query tier, and
the t3.micro special case — only the price fields and the pricing details of
the resource are modified; the identification and inference fields `ID`,
`Name`, `ResourceType`, `Provider`, `Region`, `Size`, `Quantity`, `Tags` and
`Properties` are returned unchanged. -/
theorem getPrice_mutates_only_pricing (env : AwsEnv) (st : ClientState) (res : Resource) :
    sameIdentity (getPrice env st res).resource res := by
  unfold getPrice
  split
  · rcases env.initResult with _ | msg
    · exact getPriceReady_frame env _ res
    · exact sameIdentity_refl res
  · rcases h : st.errorMsg with _ | e
    · simp only [h]
      exact getPriceReady_frame env st res
    · simp only [h]
      exact sameIdentity_refl res

theorem priceInvariant_zeroPriced (r : Resource) : priceInvariant (zeroPriced r) :=
  Or.inl ⟨rfl, rfl, rfl⟩

theorem priceInvariant_pricedAt (r : Resource) (q : ℚ) : priceInvariant (pricedAt r q) :=
  Or.inr ⟨rfl, rfl⟩

theorem priceInvariant_errDetails {r : Resource} (m : String)
    (h : priceInvariant r) : priceInvariant (errDetails r m) := h

theorem t3MicroCase_inv (env : AwsEnv) (st : ClientState) (res1 : Resource)
    (q1 : QueryInput) : priceInvariant (t3MicroCase env st res1 q1).resource := by
  unfold t3MicroCase
  rcases env.query t3SmallQuery with msg | l
  · exact priceInvariant_pricedAt res1 0
  · simp only
    split
    · exact priceInvariant_pricedAt res1 0
    · rcases h : scanFirstPos l with _ | p
      · simp only [h]
        exact priceInvariant_pricedAt res1 0
      · simp only [h]
        exact Or.inr ⟨rfl, rfl⟩

theorem tier1Scan_inv (env : AwsEnv) (st : ClientState) (res : Resource)
    (q1 : QueryInput) (priceList : List PriceEntry) :
    priceInvariant (tier1Scan env st res q1 priceList).resource := by
  unfold tier1Scan
  rcases h : scanFirstAny (priceList.take 5) with _ | q
  · simp only [h]
    exact priceInvariant_zeroPriced _
  · simp only [h]
    split
    · exact t3MicroCase_inv env st _ q1
    · exact priceInvariant_pricedAt _ q

theorem tier2_inv (env : AwsEnv) (st : ClientState) (res : Resource)
    (serviceCode : String) (q1 : QueryInput) :
    priceInvariant (tier2 env st res serviceCode q1).resource := by
  unfold tier2
  simp only
  split
  · split
    · exact priceInvariant_zeroPriced _
    · rcases h : scanFirstPos _ with _ | q
      · exact priceInvariant_zeroPriced _
      · rcases hd : res.pricingDetails with _ | d
        · simp only [hd]
          exact priceInvariant_pricedAt _ q
        · simp only [hd]
          exact priceInvariant_pricedAt _ q
  · exact priceInvariant_zeroPriced _

theorem getPriceWithService_inv (env : AwsEnv) (st : ClientState) (res : Resource)
    (serviceCode : String) (filters : List Filter) :
    priceInvariant (getPriceWithService env st res serviceCode filters).resource := by
  unfold getPriceWithService
  simp only
  split
  · exact priceInvariant_errDetails _ (priceInvariant_zeroPriced res)
  · split
    · split
      · exact tier2_inv env st res serviceCode _
      · exact priceInvariant_zeroPriced _
    · exact tier1Scan_inv env st res _ _

theorem getPriceReady_inv (env : AwsEnv) (st : ClientState) (res : Resource) :
    priceInvariant (getPriceReady env st res).resource := by
  unfold getPriceReady
  simp only
  split
  · exact getPriceWithService_inv env st res _ _
  · split
    · exact getPriceWithService_inv env st res _ _
    · split
      · exact getPriceWithService_inv env st res _ _
      · exact priceInvariant_zeroPriced _

theorem getPrice_inv (env : AwsEnv) (st : ClientState) (res : Resource) :
    priceInvariant (getPrice env st res).resource := by
  unfold getPrice
  split
  · rcases env.initResult with _ | msg
    · exact getPriceReady_inv env _ res
    · exact priceInvariant_errDetails _ (priceInvariant_zeroPriced res)
  · rcases h : st.errorMsg with _ | e
    · simp only [h]
      exact getPriceReady_inv env st res
    · simp only [h]
      exact priceInvariant_errDetails _ (priceInvariant_zeroPriced res)

/-- C8: every parsed resource has quantity at least 1; a declared `count` of 0
or -2 resolves to 1; every parsed resource satisfies the price-consistency
invariant (all prices zero at parse time); `GetPrice` establishes the invariant
on every path; and `CalculateDerivedPrices` preserves it. -/
theorem quantity_and_price_invariant :
    (∀ rt n attrs, 1 ≤ (buildResource rt n attrs).quantity) ∧
    FindQuantity [("count", AttrValue.num 0)] = 1 ∧
    FindQuantity [("count", AttrValue.num (-2))] = 1 ∧
    (∀ rt n, (buildResource rt n [("count", AttrValue.num 0)]).quantity = 1) ∧
    (∀ rt n, (buildResource rt n [("count", AttrValue.num (-2))]).quantity = 1) ∧
    (∀ rt n attrs, priceInvariant (buildResource rt n attrs)) ∧
    (∀ env st res, priceInvariant (getPrice env st res).resource) ∧
    (∀ r, priceInvariant r → priceInvariant r.calculateDerivedPrices) := by
  refine ⟨?_, by decide, by decide, fun rt n => rfl, fun rt n => rfl,
    fun rt n attrs => Or.inl ⟨rfl, rfl, rfl⟩, getPrice_inv, ?_⟩
  · intro rt n attrs
    show 1 ≤ (if FindQuantity attrs < 1 then 1 else FindQuantity attrs)
    split
    · exact le_refl 1
    · omega
  · intro r h
    unfold Resource.calculateDerivedPrices
    split
    · exact Or.inr ⟨rfl, rfl⟩
    · exact h

/-- Witness for C8 at concrete inputs: the clamp on a parsed resource with a
zero count, and invariant preservation through `CalculateDerivedPrices` for a
consistently priced resource. -/
theorem quantity_and_price_invariant_witness :
    1 ≤ (buildResource "aws_instance" "web" [("count", AttrValue.num 0)]).quantity ∧
    priceInvariant (Resource.calculateDerivedPrices (pricedAt NewResource 3)) :=
  ⟨quantity_and_price_invariant.1 "aws_instance" "web" [("count", AttrValue.num 0)],
   quantity_and_price_invariant.2.2.2.2.2.2.2 (pricedAt NewResource 3)
     (priceInvariant_pricedAt NewResource 3)⟩

theorem t3MicroCase_state (env : AwsEnv) (st : ClientState) (res1 : Resource)
    (q1 : QueryInput) : (t3MicroCase env st res1 q1).state = st := by
  unfold t3MicroCase
  rcases env.query t3SmallQuery with msg | l
  · rfl
  · simp only
    split
    · rfl
    · rcases h : scanFirstPos l with _ | p
      · simp only [h]
      · simp only [h]

theorem tier1Scan_state (env : AwsEnv) (st : ClientState) (res : Resource)
    (q1 : QueryInput) (priceList : List PriceEntry) :
    (tier1Scan env st res q1 priceList).state = st := by
  unfold tier1Scan
  rcases h : scanFirstAny (priceList.take 5) with _ | q
  · simp only [h]
  · simp only [h]
    split
    · exact t3MicroCase_state env st _ q1
    · rfl

theorem tier2_state (env : AwsEnv) (st : ClientState) (res : Resource)
    (serviceCode : String) (q1 : QueryInput) :
    (tier2 env st res serviceCode q1).state = st := by
  unfold tier2
  simp only
  split
  · split
    · rfl
    · rcases h : scanFirstPos _ with _ | q
      · rfl
      · rcases hd : res.pricingDetails with _ | d
        · simp only [hd]
        · simp only [hd]
  · rfl

theorem getPriceWithService_state (env : AwsEnv) (st : ClientState) (res : Resource)
    (serviceCode : String) (filters : List Filter) :
    (getPriceWithService env st res serviceCode filters).state = st := by
  unfold getPriceWithService
  simp only
  split
  · rfl
  · split
    · split
      · exact tier2_state env st res serviceCode _
      · rfl
    · exact tier1Scan_state env st res _ _

theorem getPriceReady_state (env : AwsEnv) (st : ClientState) (res : Resource) :
    (getPriceReady env st res).state = st := by
  unfold getPriceReady
  simp only
  split
  · exact getPriceWithService_state env st res _ _
  · split
    · exact getPriceWithService_state env st res _ _
    · split
      · exact getPriceWithService_state env st res _ _
      · rfl

theorem getPriceWithService_calls_ne (env : AwsEnv) (st : ClientState) (res : Resource)
    (serviceCode : String) (filters : List Filter) :
    (getPriceWithService env st res serviceCode filters).calls ≠ [] := by
  unfold getPriceWithService
  simp only
  split
  · simp
  · split
    · split
      · unfold tier2
        simp only
        split
        · split
          · simp
          · rcases h : scanFirstPos _ with _ | q
            · simp
            · rcases hd : res.pricingDetails with _ | d
              · simp only [hd]
                simp
              · simp only [hd]
                simp
        · simp
      · simp
    · unfold tier1Scan
      rcases h : scanFirstAny _ with _ | q
      · simp only [h]
        simp
      · simp only [h]
        split
        · unfold t3MicroCase
          rcases env.query t3SmallQuery with msg | l
          · simp
          · simp only
            split
            · simp
            · rcases h2 : scanFirstPos l with _ | p
              · simp only [h2]
                simp
              · simp only [h2]
                simp
        · simp

/-- C6: the adapter lifecycle. Once the lazy setup has failed, the `initDone`
flag is set and the error is cached, and every subsequent `GetPrice` call on
that state short-circuits: the state is unchanged, the cached error is
returned verbatim inside the same message, the prices are zeroed, and no
catalog query is issued. In the ready state (setup succeeded), no `GetPrice`
outcome ever changes the state — a query failure stays local to the query —
and the next call for a supported resource type still issues at least one
catalog query. -/
theorem adapter_lifecycle :
    (∀ (env : AwsEnv) (st : ClientState) (res : Resource) (e : String),
      st.initDone = true → st.errorMsg = some e →
      getPrice env st res =
        { state := st, resource := errDetails (zeroPriced res) e,
          err := some ("AWS pricing data unavailable: " ++ e), calls := [] }) ∧
    (∀ (env : AwsEnv) (st : ClientState) (res : Resource) (m : String),
      st.initDone = false → env.initResult = InitResult.fail m →
      (getPrice env st res).state = { initDone := true, errorMsg := some m } ∧
      (getPrice env st res).err = some ("AWS pricing data unavailable: " ++ m) ∧
      (getPrice env st res).calls = []) ∧
    (∀ (env : AwsEnv) (st : ClientState) (res : Resource),
      st.initDone = true → st.errorMsg = none →
      (getPrice env st res).state = st) ∧
    (∀ (env env2 : AwsEnv) (st : ClientState) (res res2 : Resource),
      st.initDone = true → st.errorMsg = none →
      strStartsWith res2.resourceType "aws_instance" = true →
      (getPrice env2 (getPrice env st res).state res2).calls ≠ []) := by
  refine ⟨?_, ?_, ?_, ?_⟩
  · intro env st res e h1 h2
    unfold getPrice
    rw [h1, h2]
    rfl
  · intro env st res m h1 h2
    unfold getPrice
    rw [h1, h2]
    exact ⟨rfl, rfl, rfl⟩
  · intro env st res h1 h2
    unfold getPrice
    rw [h1, h2]
    exact getPriceReady_state env st res
  · intro env env2 st res res2 h1 h2 h3
    have hst : (getPrice env st res).state = st := by
      unfold getPrice
      rw [h1, h2]
      exact getPriceReady_state env st res
    rw [hst]
    unfold getPrice
    rw [h1, h2]
    unfold getPriceReady
    simp only [h3, if_true]
    exact getPriceWithService_calls_ne env2 st res2 _ _

/-- Witness for C6 at concrete inputs: a failed adapter state short-circuits
with the cached error and no calls; a ready state is never left. -/
theorem adapter_lifecycle_witness :
    getPrice { initResult := InitResult.ok, query := fun _ => QueryResult.ok [] }
        { initDone := true, errorMsg := some "AWS credentials not found: x" } NewResource =
      { state := { initDone := true, errorMsg := some "AWS credentials not found: x" },
        resource := errDetails (zeroPriced NewResource) "AWS credentials not found: x",
        err := some "AWS pricing data unavailable: AWS credentials not found: x",
        calls := [] } ∧
    (getPrice { initResult := InitResult.ok, query := fun _ => QueryResult.ok [] }
        { initDone := true, errorMsg := none } NewResource).state =
      { initDone := true, errorMsg := none } := by
  constructor
  · have := adapter_lifecycle.1
      { initResult := InitResult.ok, query := fun _ => QueryResult.ok [] }
      { initDone := true, errorMsg := some "AWS credentials not found: x" }
      NewResource "AWS credentials not found: x" rfl rfl
    rw [this]
    rfl
  · exact adapter_lifecycle.2.2.1
      { initResult := InitResult.ok, query := fun _ => QueryResult.ok [] }
      { initDone := true, errorMsg := none } NewResource rfl rfl

theorem lookupA_mapAdd_self (m : List (String × ℚ)) (k : String) (v : ℚ) :
    lookupA (mapAdd m k v) k = some ((lookupA m k).getD 0 + v) := by
  induction m with
  | nil => simp [mapAdd, lookupA]
  | cons hd tl ih =>
      obtain ⟨k', v'⟩ := hd
      by_cases h : k' = k
      · subst h
        simp [mapAdd, lookupA]
      · simp [mapAdd, lookupA, h, ih]

theorem lookupA_mapAdd_other (m : List (String × ℚ)) (k k' : String) (v : ℚ)
    (h : k' ≠ k) : lookupA (mapAdd m k v) k' = lookupA m k' := by
  have hne : ¬(k = k') := fun hh => h hh.symm
  induction m with
  | nil => simp [mapAdd, lookupA, hne]
  | cons hd tl ih =>
      obtain ⟨k0, v0⟩ := hd
      by_cases h0 : k0 = k
      · subst h0
        simp [mapAdd, lookupA, hne]
      · simp only [mapAdd, if_neg h0, lookupA]
        by_cases h1 : k0 = k'
        · simp [h1]
        · simp [h1, ih]

theorem calcStep_resources (clients : List (String × PricingClient)) (a : Report)
    (res : Resource) :
    ∃ x, (calcStep clients a res).resources = a.resources ++ [x] := by
  rcases hcl : lookupA clients res.provider with _ | f
  · exact ⟨res, by simp [calcStep, hcl]⟩
  · rcases hf : f res with ⟨res', err⟩
    rcases err with _ | e
    · exact ⟨res', by simp [calcStep, hcl, hf]⟩
    · exact ⟨res', by simp [calcStep, hcl, hf]⟩

theorem calcStep_byProvider (clients : List (String × PricingClient)) (a : Report)
    (res : Resource) :
    (calcStep clients a res).byProvider = a.byProvider ∨
    ∃ f res', lookupA clients res.provider = some f ∧ f res = (res', none) ∧
      (calcStep clients a res).byProvider =
        mapAdd a.byProvider res'.provider res'.monthlyPrice := by
  rcases hcl : lookupA clients res.provider with _ | f
  · left
    simp [calcStep, hcl]
  · rcases hf : f res with ⟨res', err⟩
    rcases err with _ | e
    · right
      exact ⟨f, res', rfl, hf, by simp [calcStep, hcl, hf]⟩
    · left
      simp [calcStep, hcl, hf]

theorem foldl_calcStep_length (clients : List (String × PricingClient)) :
    ∀ (l : List Resource) (a : Report),
      (l.foldl (calcStep clients) a).resources.length = a.resources.length + l.length := by
  intro l
  induction l with
  | nil => intro a; simp
  | cons hd tl ih =>
      intro a
      obtain ⟨x, hx⟩ := calcStep_resources clients a hd
      simp [List.foldl_cons, ih, hx]
      omega

theorem foldl_calcStep_mem_acc (clients : List (String × PricingClient)) :
    ∀ (l : List Resource) (a : Report) (y : Resource),
      y ∈ a.resources → y ∈ (l.foldl (calcStep clients) a).resources := by
  intro l
  induction l with
  | nil => intro a y hy; simpa using hy
  | cons hd tl ih =>
      intro a y hy
      apply ih
      obtain ⟨x, hx⟩ := calcStep_resources clients a hd
      rw [hx]
      exact List.mem_append_left _ hy

theorem foldl_calcStep_mem_skipped (clients : List (String × PricingClient)) :
    ∀ (l : List Resource) (a : Report) (res : Resource),
      res ∈ l → lookupA clients res.provider = none →
      res ∈ (l.foldl (calcStep clients) a).resources := by
  intro l
  induction l with
  | nil => intro a res h; simp at h
  | cons hd tl ih =>
      intro a res hmem hnone
      rcases List.mem_cons.1 hmem with h | h
      · subst h
        rw [List.foldl_cons]
        apply foldl_calcStep_mem_acc clients tl
        simp [calcStep, hnone]
      · exact ih _ res h hnone

theorem foldl_calcStep_byProvider (clients : List (String × PricingClient)) :
    ∀ (l : List Resource) (a : Report) (k : String),
      lookupA (l.foldl (calcStep clients) a).byProvider k ≠ none →
      lookupA a.byProvider k ≠ none ∨
        ∃ res ∈ l, ∃ f, lookupA clients res.provider = some f ∧
          (f res).2 = none ∧ (f res).1.provider = k := by
  intro l
  induction l with
  | nil => intro a k h; exact Or.inl (by simpa using h)
  | cons hd tl ih =>
      intro a k h
      rw [List.foldl_cons] at h
      rcases ih _ k h with h1 | h1
      · rcases calcStep_byProvider clients a hd with h2 | ⟨f, res', hcl, hf, h2⟩
        · rw [h2] at h1
          exact Or.inl h1
        · rw [h2] at h1
          by_cases hk : res'.provider = k
          · refine Or.inr ⟨hd, List.mem_cons_self hd tl, f, hcl, ?_, ?_⟩
            · rw [hf]
            · rw [hf]
              exact hk
          · left
            rw [lookupA_mapAdd_other _ _ _ _ (fun hh => hk hh.symm)] at h1
            exact h1
      · obtain ⟨res, hres, f, h2, h3, h4⟩ := h1
        exact Or.inr ⟨res, List.mem_cons_of_mem hd hres, f, h2, h3, h4⟩

/-- The end-to-end scenario resource of the specification: an `aws_instance`
named `web` of size `t2.micro` in `us-east-1` with quantity 2. -/
def scenarioResource : Resource :=
  { NewResource with
    id := "aws_instance.web"
    name := "web"
    resourceType := "aws_instance"
    provider := "aws"
    region := "us-east-1"
    size := "t2.micro"
    quantity := 2 }

/-- A stub pricing client that resolves every resource at the hourly price
0.0116 of the end-to-end scenario. -/
def scenarioClient : PricingClient :=
  fun r => (pricedAt r (0.0116 : ℚ), none)

/-- C1 counterexample: run the cost-calculation pass, the aggregation step the
claim cites, over exactly one resource priced at hourly 0.0116 with quantity 2.
The priced resource does carry hourly price 0.0116, monthly price 8.468 and
quantity 2, but the aggregated monthly total is 8.468 — the pass adds prices
without multiplying by quantity — and not 16.936 as the claim states. -/
theorem calculateCosts_ignores_quantity :
    ((CalculateCosts [("aws", scenarioClient)] [scenarioResource]).1.resources.headD
        NewResource).hourlyPrice = (0.0116 : ℚ) ∧
    ((CalculateCosts [("aws", scenarioClient)] [scenarioResource]).1.resources.headD
        NewResource).quantity = 2 ∧
    (CalculateCosts [("aws", scenarioClient)] [scenarioResource]).1.totalMonthly =
      (8.468 : ℚ) ∧
    (CalculateCosts [("aws", scenarioClient)] [scenarioResource]).1.totalMonthly ≠
      (16.936 : ℚ) := by
  refine ⟨rfl, rfl, ?_, ?_⟩
  · norm_num [CalculateCosts, calcStep, lookupA, scenarioClient, scenarioResource,
      pricedAt, NewReport, NewResource]
  · norm_num [CalculateCosts, calcStep, lookupA, scenarioClient, scenarioResource,
      pricedAt, NewReport, NewResource]

/-- C1 as amended: `Report.AddResource` adds `price × quantity` to the three
running totals and `monthlyPrice × quantity` into each of the three breakdown
mappings (creating the entry on first encounter), and for the scenario
resource priced at hourly 0.0116 with quantity 2 it yields the monthly total
16.936; `Calculator.CalculateCosts`, by contrast, accumulates the same
resource without quantity weighting, yielding 8.468. -/
theorem addResource_adds_quantity_weighted :
    (∀ (r : Report) (res : Resource),
      (r.addResource res).totalHourly =
          r.totalHourly + res.hourlyPrice * (res.quantity : ℚ) ∧
      (r.addResource res).totalMonthly =
          r.totalMonthly + res.monthlyPrice * (res.quantity : ℚ) ∧
      (r.addResource res).totalYearly =
          r.totalYearly + res.yearlyPrice * (res.quantity : ℚ) ∧
      lookupA (r.addResource res).byProvider res.provider =
        some ((lookupA r.byProvider res.provider).getD 0 +
          res.monthlyPrice * (res.quantity : ℚ)) ∧
      lookupA (r.addResource res).byResourceType res.resourceType =
        some ((lookupA r.byResourceType res.resourceType).getD 0 +
          res.monthlyPrice * (res.quantity : ℚ)) ∧
      lookupA (r.addResource res).byRegion res.region =
        some ((lookupA r.byRegion res.region).getD 0 +
          res.monthlyPrice * (res.quantity : ℚ))) ∧
    (NewReport.addResource (pricedAt scenarioResource (0.0116 : ℚ))).totalMonthly =
      (16.936 : ℚ) ∧
    (CalculateCosts [("aws", scenarioClient)] [scenarioResource]).1.totalMonthly =
      (8.468 : ℚ) := by
  refine ⟨?_, ?_, calculateCosts_ignores_quantity.2.2.1⟩
  · intro r res
    refine ⟨rfl, rfl, rfl, ?_, ?_, ?_⟩
    · exact lookupA_mapAdd_self _ _ _
    · exact lookupA_mapAdd_self _ _ _
    · exact lookupA_mapAdd_self _ _ _
  · norm_num [Report.addResource, Report.accumulate, pricedAt, NewReport,
      scenarioResource, NewResource]

/-- C4 counterexample: one resource whose provider `gcp` has no registered
pricing client. The pass returns no error and the resource stays in the
resource list, but the provider breakdown has no entry at all for `gcp` — the
resource is dropped from the breakdown mappings instead of contributing a zero
entry. -/
theorem unregistered_provider_dropped_from_breakdowns :
    (CalculateCosts [] [{ NewResource with provider := "gcp" }]).2 = none ∧
    (CalculateCosts [] [{ NewResource with provider := "gcp" }]).1.resources =
      [{ NewResource with provider := "gcp" }] ∧
    lookupA (CalculateCosts [] [{ NewResource with provider := "gcp" }]).1.byProvider
      "gcp" = none ∧
    lookupA (CalculateCosts [] [{ NewResource with provider := "gcp" }]).1.byRegion
      "" = none := by
  refine ⟨rfl, by decide, by decide, by decide⟩

/-- C4 as amended: the cost-calculation pass never propagates an error and
every input resource still appears in the returned resource list (resources
with no registered client pass through unchanged), but a resource whose
provider has no client, or whose price resolution errors, is skipped by the
accumulation: every key present in the provider breakdown comes from a
resource that was successfully priced, so skipped resources create no zero
entry in the breakdown mappings. -/
theorem calculateCosts_error_isolation :
    (∀ clients resources, (CalculateCosts clients resources).2 = none) ∧
    (∀ clients resources,
      (CalculateCosts clients resources).1.resources.length = resources.length) ∧
    (∀ clients resources res, res ∈ resources → lookupA clients res.provider = none →
      res ∈ (CalculateCosts clients resources).1.resources) ∧
    (∀ clients resources k,
      lookupA (CalculateCosts clients resources).1.byProvider k ≠ none →
      ∃ res ∈ resources, ∃ f, lookupA clients res.provider = some f ∧
        (f res).2 = none ∧ (f res).1.provider = k) := by
  refine ⟨fun _ _ => rfl, ?_, ?_, ?_⟩
  · intro clients resources
    unfold CalculateCosts
    simp [foldl_calcStep_length, NewReport]
  · intro clients resources res h1 h2
    exact foldl_calcStep_mem_skipped clients resources NewReport res h1 h2
  · intro clients resources k h
    rcases foldl_calcStep_byProvider clients resources NewReport k h with h1 | h1
    · simp [NewReport, lookupA] at h1
    · exact h1

/-- Witness for C4 at concrete inputs: a resource with an unregistered
provider passes through, and a priced resource's provider key is traceable to
its successful pricing. -/
theorem calculateCosts_error_isolation_witness :
    (CalculateCosts [] [{ NewResource with provider := "gcp" }]).2 = none ∧
    ({ NewResource with provider := "gcp" } : Resource) ∈
      (CalculateCosts [] [{ NewResource with provider := "gcp" }]).1.resources ∧
    (CalculateCosts [("aws", scenarioClient)] [scenarioResource]).1.resources.length = 1 := by
  refine ⟨calculateCosts_error_isolation.1 [] _, ?_, ?_⟩
  · exact calculateCosts_error_isolation.2.2.1 [] _ _ (List.mem_singleton.2 rfl) rfl
  · exact calculateCosts_error_isolation.2.1 [("aws", scenarioClient)] [scenarioResource]

theorem lookupA_some_mem {α : Type} :
    ∀ (m : List (String × α)) (k : String) (v : α),
      lookupA m k = some v → (k, v) ∈ m := by
  intro m
  induction m with
  | nil => intro k v h; simp [lookupA] at h
  | cons hd tl ih =>
      intro k v h
      obtain ⟨k0, v0⟩ := hd
      by_cases h0 : k0 = k
      · subst h0
        simp [lookupA] at h
        simp [h]
      · simp [lookupA, h0] at h
        exact List.mem_cons_of_mem _ (ih k v h)

/-- A name counts as region-related for phase (b) exactly when its lower-cased
form contains one of the three keywords. -/
def regionRelatedName (n : String) : Bool :=
  containsSub (strToLower n) "region" || containsSub (strToLower n) "location" ||
    containsSub (strToLower n) "zone"

theorem regionPhaseA_none (attrs : List (String × AttrValue))
    (hA : ∀ p ∈ attrs, regionRelatedName p.1 = false) :
    ∀ fields : List String, (∀ f ∈ fields, regionRelatedName f = true) →
      regionPhaseA attrs fields = none := by
  intro fields
  induction fields with
  | nil => intro _; rfl
  | cons f rest ih =>
      intro hf
      have hnone : lookupA attrs f = none := by
        rcases h : lookupA attrs f with _ | v
        · rfl
        · have hmem := lookupA_some_mem attrs f v h
          have := hA (f, v) hmem
          rw [hf f (List.mem_cons_self f rest)] at this
          cases this
      simp [regionPhaseA, hnone]
      exact ih (fun g hg => hf g (List.mem_cons_of_mem f hg))

theorem regionPhaseB_none :
    ∀ attrs : List (String × AttrValue),
      (∀ p ∈ attrs, regionRelatedName p.1 = false) → regionPhaseB attrs = none := by
  intro attrs
  induction attrs with
  | nil => intro _; rfl
  | cons hd tl ih =>
      intro hA
      obtain ⟨n, v⟩ := hd
      have hn := hA (n, v) (List.mem_cons_self _ tl)
      simp only [regionRelatedName, Bool.or_eq_false_iff] at hn
      simp only [regionPhaseB, hn.1.1, hn.1.2, hn.2, Bool.false_eq_true, if_false]
      exact ih (fun p hp => hA p (List.mem_cons_of_mem _ hp))

theorem regionPhaseC_none :
    ∀ attrs : List (String × AttrValue),
      (∀ p ∈ attrs, ∀ s, getStr p.2 = some s → looksLikeRegion s = false) →
      regionPhaseC attrs = none := by
  intro attrs
  induction attrs with
  | nil => intro _; rfl
  | cons hd tl ih =>
      intro hC
      obtain ⟨n, v⟩ := hd
      have htl := ih (fun p hp => hC p (List.mem_cons_of_mem _ hp))
      rcases hv : getStr v with _ | s
      · simp [regionPhaseC, hv, htl]
      · have := hC (n, v) (List.mem_cons_self _ tl) s hv
        simp [regionPhaseC, hv, this, htl]

/-- C9: region inference on value-only signals. `us-east-1` is returned and
satisfies the AWS shape branch; `eastus` is returned and satisfies the
known-region-code branch (not the shape branch); `my-app-server` yields the
empty string; and in general, whenever no attribute name is region-related and
no plain string value passes the region-shape test, `FindRegionField` returns
the empty string — arbitrary strings are never accepted. -/
theorem region_inference_shapes :
    FindRegionField "t" [("attr1", AttrValue.str "us-east-1")] = "us-east-1" ∧
    awsRegionShape "us-east-1" = true ∧
    FindRegionField "t" [("attr1", AttrValue.str "eastus")] = "eastus" ∧
    knownAzureRegion "eastus" = true ∧
    awsRegionShape "eastus" = false ∧
    FindRegionField "t" [("attr1", AttrValue.str "my-app-server")] = "" ∧
    looksLikeRegion "my-app-server" = false ∧
    (∀ (rt : String) (attrs : List (String × AttrValue)),
      (∀ p ∈ attrs, regionRelatedName p.1 = false) →
      (∀ p ∈ attrs, ∀ s, getStr p.2 = some s → looksLikeRegion s = false) →
      FindRegionField rt attrs = "") := by
  refine ⟨by decide, by decide, by decide, by decide, by decide, by decide, by decide, ?_⟩
  intro rt attrs hA hC
  have ha : regionPhaseA attrs regionFields = none :=
    regionPhaseA_none attrs hA regionFields (by decide)
  have hb := regionPhaseB_none attrs hA
  have hc := regionPhaseC_none attrs hC
  simp [FindRegionField, ha, hb, hc]

/-- Witness for C9 at a concrete input: a single attribute holding
`my-app-server` under a region-unrelated name yields no region through the
general no-false-positive clause. -/
theorem region_inference_shapes_witness :
    FindRegionField "vendorA_instance" [("server_label", AttrValue.str "my-app-server")] = "" :=
  region_inference_shapes.2.2.2.2.2.2.2 "vendorA_instance"
    [("server_label", AttrValue.str "my-app-server")]
    (by decide) (by decide)

/-- The ready adapter state: setup succeeded, no cached error. -/
def readyState : ClientState :=
  { initDone := true, errorMsg := none }

/-- The exact (tier-1) query `GetPrice` issues for an EC2 resource. -/
def ec2Query (res : Resource) : QueryInput :=
  { serviceCode := "AmazonEC2",
    filters := buildEC2Filters res.size (if res.region = "" then "us-east-1" else res.region),
    maxResults := 100 }

theorem getPrice_ready (env : AwsEnv) (st : ClientState) (res : Resource)
    (h1 : st.initDone = true) (h2 : st.errorMsg = none) :
    getPrice env st res = getPriceReady env st res := by
  unfold getPrice
  rw [h1, h2]
  rfl

theorem getPriceReady_ec2 (env : AwsEnv) (st : ClientState) (res : Resource)
    (h : strStartsWith res.resourceType "aws_instance" = true) :
    getPriceReady env st res =
      getPriceWithService env st res "AmazonEC2"
        (buildEC2Filters res.size (if res.region = "" then "us-east-1" else res.region)) := by
  unfold getPriceReady
  simp [h]

theorem getPriceWithService_ok_nonempty (env : AwsEnv) (st : ClientState) (res : Resource)
    (serviceCode : String) (filters : List Filter) (pl : List PriceEntry)
    (hq : env.query { serviceCode := serviceCode, filters := filters, maxResults := 100 } =
      QueryResult.ok pl)
    (hne : pl ≠ []) :
    getPriceWithService env st res serviceCode filters =
      tier1Scan env st res
        { serviceCode := serviceCode, filters := filters, maxResults := 100 } pl := by
  unfold getPriceWithService
  simp only [hq]
  rcases pl with _ | ⟨e0, rest⟩
  · exact absurd rfl hne
  · rfl

theorem tier1Scan_priced (env : AwsEnv) (st : ClientState) (res : Resource)
    (q1 : QueryInput) (pl : List PriceEntry) (q : ℚ)
    (hscan : scanFirstAny (pl.take 5) = some q) (hsize : res.size ≠ "t3.micro") :
    tier1Scan env st res q1 pl =
      { state := st,
        resource := pricedAt { res with pricingDetails := some (mkDetails "AWS Pricing API") } q,
        err := none, calls := [q1] } := by
  unfold tier1Scan
  simp [hscan, hsize]

theorem scanFirstAny_append (pre l : List PriceEntry)
    (h : ∀ e ∈ pre, scanEntryAny e = none) :
    scanFirstAny (pre ++ l) = scanFirstAny l := by
  induction pre with
  | nil => rfl
  | cons e0 rest ih =>
      have h0 := h e0 (List.mem_cons_self e0 rest)
      simp only [List.cons_append, scanFirstAny, h0]
      exact ih (fun e he => h e (List.mem_cons_of_mem e0 he))

/-- C3 counterexample: a ready adapter, an EC2 resource whose exact query
returns two catalog entries — the first parsing to the amount 0, the second to
the strictly positive amount 3. The scan settles on the first entry: the
resource is priced at 0 with no error, even though a later entry within the
first five yields a strictly positive parseable amount (3), which the claim
says should have been preferred. -/
theorem tier1_scan_settles_on_zero :
    (getPrice
        { initResult := InitResult.ok,
          query := fun q =>
            if q = ec2Query { NewResource with
                id := "aws_instance.web", resourceType := "aws_instance",
                provider := "aws", region := "us-east-1", size := "m1.small" } then
              QueryResult.ok [PriceEntry.withTerms [some [⟨UsdField.amount 0⟩]],
                PriceEntry.withTerms [some [⟨UsdField.amount 3⟩]]]
            else QueryResult.ok [] }
        readyState
        { NewResource with
          id := "aws_instance.web", resourceType := "aws_instance",
          provider := "aws", region := "us-east-1", size := "m1.small" }).resource.hourlyPrice
      = 0 ∧
    (getPrice
        { initResult := InitResult.ok,
          query := fun q =>
            if q = ec2Query { NewResource with
                id := "aws_instance.web", resourceType := "aws_instance",
                provider := "aws", region := "us-east-1", size := "m1.small" } then
              QueryResult.ok [PriceEntry.withTerms [some [⟨UsdField.amount 0⟩]],
                PriceEntry.withTerms [some [⟨UsdField.amount 3⟩]]]
            else QueryResult.ok [] }
        readyState
        { NewResource with
          id := "aws_instance.web", resourceType := "aws_instance",
          provider := "aws", region := "us-east-1", size := "m1.small" }).err = none ∧
    scanFirstPos ((List.take 5 [PriceEntry.withTerms [some [⟨UsdField.amount 0⟩]],
      PriceEntry.withTerms [some [⟨UsdField.amount 3⟩]]])) = some 3 ∧
    (0 : ℚ) ≠ 3 := by
  refine ⟨by decide, by decide, by decide, by decide⟩

/-- C3 as amended: for a ready adapter and an EC2 resource (not t3.micro, so
the anomaly correction stays out of play) whose exact query returns a
non-empty price list, the tier-1 scan prices the resource at the first
parseable amount among the first five entries, positive or not, with no error;
and the outcome depends on the price list only through its first five entries:
two environments whose exact queries agree on the first five entries (and are
both non-empty) produce identical outcomes. -/
theorem tier1_scan_first_parseable :
    (∀ (env : AwsEnv) (st : ClientState) (res : Resource)
       (pl : List PriceEntry) (pre : List PriceEntry) (e : PriceEntry)
       (post : List PriceEntry) (q : ℚ),
      st.initDone = true → st.errorMsg = none →
      strStartsWith res.resourceType "aws_instance" = true →
      res.size ≠ "t3.micro" →
      env.query (ec2Query res) = QueryResult.ok pl →
      pl.take 5 = pre ++ e :: post →
      (∀ e' ∈ pre, scanEntryAny e' = none) →
      scanEntryAny e = some q →
      (getPrice env st res).resource.hourlyPrice = q ∧
      (getPrice env st res).err = none ∧
      (getPrice env st res).calls = [ec2Query res]) ∧
    (∀ (env env2 : AwsEnv) (st : ClientState) (res : Resource)
       (pl pl2 : List PriceEntry),
      st.initDone = true → st.errorMsg = none →
      strStartsWith res.resourceType "aws_instance" = true →
      res.size ≠ "t3.micro" →
      env.query (ec2Query res) = QueryResult.ok pl →
      env2.query (ec2Query res) = QueryResult.ok pl2 →
      pl ≠ [] → pl2 ≠ [] → pl.take 5 = pl2.take 5 →
      getPrice env st res = getPrice env2 st res) := by
  constructor
  · intro env st res pl pre e post q h1 h2 h3 h4 hq hsplit hpre he
    have hne : pl ≠ [] := by
      intro hnil
      subst hnil
      simp at hsplit
    have hscan : scanFirstAny (pl.take 5) = some q := by
      rw [hsplit, scanFirstAny_append pre _ hpre]
      simp [scanFirstAny, he]
    rw [getPrice_ready env st res h1 h2, getPriceReady_ec2 env st res h3,
      getPriceWithService_ok_nonempty env st res _ _ pl hq hne,
      tier1Scan_priced env st res _ pl q hscan h4]
    exact ⟨rfl, rfl, rfl⟩
  · intro env env2 st res pl pl2 h1 h2 h3 h4 hq hq2 hne hne2 htake
    rw [getPrice_ready env st res h1 h2, getPriceReady_ec2 env st res h3,
      getPriceWithService_ok_nonempty env st res _ _ pl hq hne,
      getPrice_ready env2 st res h1 h2, getPriceReady_ec2 env2 st res h3,
      getPriceWithService_ok_nonempty env2 st res _ _ pl2 hq2 hne2]
    unfold tier1Scan
    rw [htake]
    rcases hscan : scanFirstAny (pl2.take 5) with _ | q
    · rfl
    · simp only [hscan, h4]
      have hcond : (decide (res.size = "t3.micro") && decide (q = 0)) = false := by
        simp [h4]
      simp [hcond]

/-- Witness for C3 at concrete inputs: a malformed leading entry is skipped
and the second entry's parseable amount 3 prices the resource. -/
theorem tier1_scan_first_parseable_witness :
    (getPrice
        { initResult := InitResult.ok,
          query := fun q =>
            if q = ec2Query { NewResource with
                id := "aws_instance.web", resourceType := "aws_instance",
                provider := "aws", region := "us-east-1", size := "m1.small" } then
              QueryResult.ok [PriceEntry.malformed,
                PriceEntry.withTerms [some [⟨UsdField.amount 3⟩]]]
            else QueryResult.ok [] }
        readyState
        { NewResource with
          id := "aws_instance.web", resourceType := "aws_instance",
          provider := "aws", region := "us-east-1", size := "m1.small" }).resource.hourlyPrice
      = 3 :=
  (tier1_scan_first_parseable.1
    { initResult := InitResult.ok,
      query := fun q =>
        if q = ec2Query { NewResource with
            id := "aws_instance.web", resourceType := "aws_instance",
            provider := "aws", region := "us-east-1", size := "m1.small" } then
          QueryResult.ok [PriceEntry.malformed,
            PriceEntry.withTerms [some [⟨UsdField.amount 3⟩]]]
        else QueryResult.ok [] }
    readyState
    { NewResource with
      id := "aws_instance.web", resourceType := "aws_instance",
      provider := "aws", region := "us-east-1", size := "m1.small" }
    [PriceEntry.malformed, PriceEntry.withTerms [some [⟨UsdField.amount 3⟩]]]
    [PriceEntry.malformed] (PriceEntry.withTerms [some [⟨UsdField.amount 3⟩]]) []
    3 rfl rfl (by decide) (by decide) (by decide) (by decide) (by decide) (by decide)).1

theorem tier1Scan_calls (env : AwsEnv) (st : ClientState) (res : Resource)
    (q1 : QueryInput) (pl : List PriceEntry) :
    (tier1Scan env st res q1 pl).calls = [q1] ∨
    (tier1Scan env st res q1 pl).calls = [q1, t3SmallQuery] := by
  unfold tier1Scan
  rcases h : scanFirstAny (pl.take 5) with _ | q
  · simp only [h]
    exact Or.inl (by simp)
  · simp only [h]
    split
    · unfold t3MicroCase
      rcases env.query t3SmallQuery with msg | l
      · exact Or.inr (by simp)
      · simp only
        split
        · exact Or.inr (by simp)
        · rcases h2 : scanFirstPos l with _ | p
          · simp only [h2]
            exact Or.inr (by simp)
          · simp only [h2]
            exact Or.inr (by simp)
    · exact Or.inl (by simp)

theorem tier2_pos (env : AwsEnv) (st : ClientState) (res : Resource)
    (serviceCode : String) (q1 : QueryInput) (l : List PriceEntry) (q : ℚ)
    (hq : env.query (relaxedQuery serviceCode res) = QueryResult.ok l)
    (hne : l ≠ []) (hscan : scanFirstPos (l.take 5) = some q)
    (hd : res.pricingDetails = none) :
    tier2 env st res serviceCode q1 =
      { state := st,
        resource := pricedAt
          { res with pricingDetails := some (mkDetails "AWS Pricing API (simplified query)") } q,
        err := none, calls := [q1, relaxedQuery serviceCode res] } := by
  unfold tier2
  simp only [hq]
  rcases l with _ | ⟨e0, rest⟩
  · exact absurd rfl hne
  · simp only [List.isEmpty_cons, Bool.false_eq_true, if_false, hscan, hd]

theorem tier2_no_positive (env : AwsEnv) (st : ClientState) (res : Resource)
    (serviceCode : String) (q1 : QueryInput) (l : List PriceEntry)
    (hq : env.query (relaxedQuery serviceCode res) = QueryResult.ok l)
    (hne : l ≠ []) (hscan : scanFirstPos (l.take 5) = none) :
    tier2 env st res serviceCode q1 =
      { state := st, resource := zeroPriced res,
        err := some ("no valid pricing found for resource: " ++ res.id),
        calls := [q1, relaxedQuery serviceCode res] } := by
  unfold tier2
  simp only [hq]
  rcases l with _ | ⟨e0, rest⟩
  · exact absurd rfl hne
  · simp only [List.isEmpty_cons, Bool.false_eq_true, if_false, hscan]

theorem tier2_no_results (env : AwsEnv) (st : ClientState) (res : Resource)
    (serviceCode : String) (q1 : QueryInput)
    (hq : env.query (relaxedQuery serviceCode res) = QueryResult.ok []) :
    tier2 env st res serviceCode q1 =
      { state := st, resource := zeroPriced res,
        err := some ("no pricing data found for resource: " ++ res.id),
        calls := [q1, relaxedQuery serviceCode res] } := by
  unfold tier2
  simp only [hq]
  rfl

theorem getPriceWithService_empty_relaxes (env : AwsEnv) (st : ClientState)
    (res : Resource) (serviceCode : String) (filters : List Filter)
    (hq : env.query { serviceCode := serviceCode, filters := filters, maxResults := 100 } =
      QueryResult.ok [])
    (hlen : filters.length > 2) :
    getPriceWithService env st res serviceCode filters =
      tier2 env st res serviceCode
        { serviceCode := serviceCode, filters := filters, maxResults := 100 } := by
  unfold getPriceWithService
  simp [hq, hlen]

theorem getPriceWithService_empty_few_filters (env : AwsEnv) (st : ClientState)
    (res : Resource) (serviceCode : String) (filters : List Filter)
    (hq : env.query { serviceCode := serviceCode, filters := filters, maxResults := 100 } =
      QueryResult.ok [])
    (hlen : ¬(filters.length > 2)) :
    getPriceWithService env st res serviceCode filters =
      { state := st, resource := zeroPriced res,
        err := some ("no pricing data found for resource: " ++ res.id),
        calls := [{ serviceCode := serviceCode, filters := filters, maxResults := 100 }] } := by
  unfold getPriceWithService
  simp [hq, hlen]

/-- C7 counterexample: a ready adapter and an EC2 resource; the exact query
returns zero entries and the relaxed query returns one entry whose amount
parses to 0. The tier-1 scan accepts any parseable amount — applied to that
same entry it yields the amount 0 — but the tier-2 scan does not scan the same
way: it demands a strictly positive amount, so the resource ends unpriced with
the error `no valid pricing found for resource: ...` instead of being priced
at 0. -/
theorem tier2_rejects_what_tier1_accepts :
    scanFirstAny (List.take 5 [PriceEntry.withTerms [some [⟨UsdField.amount 0⟩]]]) =
      some 0 ∧
    (getPrice
        { initResult := InitResult.ok,
          query := fun q =>
            if q = relaxedQuery "AmazonEC2" { NewResource with
                id := "aws_instance.web", resourceType := "aws_instance",
                provider := "aws", region := "us-east-1", size := "m1.small" } then
              QueryResult.ok [PriceEntry.withTerms [some [⟨UsdField.amount 0⟩]]]
            else QueryResult.ok [] }
        readyState
        { NewResource with
          id := "aws_instance.web", resourceType := "aws_instance",
          provider := "aws", region := "us-east-1", size := "m1.small" }).err =
      some "no valid pricing found for resource: aws_instance.web" ∧
    (getPrice
        { initResult := InitResult.ok,
          query := fun q =>
            if q = relaxedQuery "AmazonEC2" { NewResource with
                id := "aws_instance.web", resourceType := "aws_instance",
                provider := "aws", region := "us-east-1", size := "m1.small" } then
              QueryResult.ok [PriceEntry.withTerms [some [⟨UsdField.amount 0⟩]]]
            else QueryResult.ok [] }
        readyState
        { NewResource with
          id := "aws_instance.web", resourceType := "aws_instance",
          provider := "aws", region := "us-east-1", size := "m1.small" }).resource.hourlyPrice
      = 0 := by
  refine ⟨by decide, by decide, by decide⟩

/-- C7 as amended: the relaxed (tier-2) query is issued exactly when the tier-1
query returned zero entries and the original filter set had more than two
filters, and it uses the minimal filter set of the service-code filter plus —
when the size is known — the service-specific size filter. It scans at most
the first five entries with the same navigation as tier 1 but accepts only
strictly positive amounts: a positive amount prices the resource and (when no
prior diagnostic exists) marks the source as the simplified-query path, a
non-empty result with no positive amount fails with `no valid pricing found`,
and zero relaxed results are a terminal failure with `no pricing data found`.
With fewer than three original filters the same terminal failure is reached
with no relaxed query, and a non-empty tier-1 result never issues the relaxed
query. -/
theorem tier2_issued_exactly_when :
    ∀ (env : AwsEnv) (st : ClientState) (res : Resource)
      (serviceCode : String) (filters : List Filter),
      (env.query { serviceCode := serviceCode, filters := filters, maxResults := 100 } =
          QueryResult.ok [] → filters.length > 2 →
        getPriceWithService env st res serviceCode filters =
          tier2 env st res serviceCode
            { serviceCode := serviceCode, filters := filters, maxResults := 100 } ∧
        (∀ (l : List PriceEntry) (q : ℚ),
          env.query (relaxedQuery serviceCode res) = QueryResult.ok l → l ≠ [] →
          scanFirstPos (l.take 5) = some q → res.pricingDetails = none →
          (getPriceWithService env st res serviceCode filters).resource =
            pricedAt { res with
              pricingDetails := some (mkDetails "AWS Pricing API (simplified query)") } q ∧
          (getPriceWithService env st res serviceCode filters).err = none ∧
          (getPriceWithService env st res serviceCode filters).calls =
            [{ serviceCode := serviceCode, filters := filters, maxResults := 100 },
             relaxedQuery serviceCode res]) ∧
        (∀ l : List PriceEntry,
          env.query (relaxedQuery serviceCode res) = QueryResult.ok l → l ≠ [] →
          scanFirstPos (l.take 5) = none →
          (getPriceWithService env st res serviceCode filters).err =
            some ("no valid pricing found for resource: " ++ res.id)) ∧
        (env.query (relaxedQuery serviceCode res) = QueryResult.ok [] →
          (getPriceWithService env st res serviceCode filters).err =
            some ("no pricing data found for resource: " ++ res.id) ∧
          (getPriceWithService env st res serviceCode filters).resource = zeroPriced res)) ∧
      (env.query { serviceCode := serviceCode, filters := filters, maxResults := 100 } =
          QueryResult.ok [] → ¬(filters.length > 2) →
        getPriceWithService env st res serviceCode filters =
          { state := st, resource := zeroPriced res,
            err := some ("no pricing data found for resource: " ++ res.id),
            calls := [{ serviceCode := serviceCode, filters := filters, maxResults := 100 }] }) ∧
      (∀ pl : List PriceEntry,
        env.query { serviceCode := serviceCode, filters := filters, maxResults := 100 } =
          QueryResult.ok pl → pl ≠ [] →
        (getPriceWithService env st res serviceCode filters).calls =
            [{ serviceCode := serviceCode, filters := filters, maxResults := 100 }] ∨
        (getPriceWithService env st res serviceCode filters).calls =
            [{ serviceCode := serviceCode, filters := filters, maxResults := 100 },
             t3SmallQuery]) := by
  intro env st res serviceCode filters
  refine ⟨?_, ?_, ?_⟩
  · intro hq hlen
    have hmain := getPriceWithService_empty_relaxes env st res serviceCode filters hq hlen
    refine ⟨hmain, ?_, ?_, ?_⟩
    · intro l q hrq hne hscan hd
      rw [hmain, tier2_pos env st res serviceCode _ l q hrq hne hscan hd]
      exact ⟨rfl, rfl, rfl⟩
    · intro l hrq hne hscan
      rw [hmain, tier2_no_positive env st res serviceCode _ l hrq hne hscan]
    · intro hrq
      rw [hmain, tier2_no_results env st res serviceCode _ hrq]
      exact ⟨rfl, rfl⟩
  · intro hq hlen
    exact getPriceWithService_empty_few_filters env st res serviceCode filters hq hlen
  · intro pl hq hne
    rw [getPriceWithService_ok_nonempty env st res serviceCode filters pl hq hne]
    exact tier1Scan_calls env st res _ pl

/-- Witness for C7 at concrete inputs: an EC2 resource with five exact filters
whose exact query is empty and whose relaxed query returns the positive amount
3 is priced through the relaxed path with the simplified-query diagnostic. -/
theorem tier2_issued_exactly_when_witness :
    (getPriceWithService
        { initResult := InitResult.ok,
          query := fun q =>
            if q = relaxedQuery "AmazonEC2" { NewResource with
                id := "aws_instance.web", resourceType := "aws_instance",
                provider := "aws", region := "us-east-1", size := "m1.small" } then
              QueryResult.ok [PriceEntry.withTerms [some [⟨UsdField.amount 3⟩]]]
            else QueryResult.ok [] }
        readyState
        { NewResource with
          id := "aws_instance.web", resourceType := "aws_instance",
          provider := "aws", region := "us-east-1", size := "m1.small" }
        "AmazonEC2" (buildEC2Filters "m1.small" "us-east-1")).resource =
      pricedAt { ({ NewResource with
          id := "aws_instance.web", resourceType := "aws_instance",
          provider := "aws", region := "us-east-1", size := "m1.small" } : Resource) with
        pricingDetails := some (mkDetails "AWS Pricing API (simplified query)") } 3 :=
  ((tier2_issued_exactly_when
      { initResult := InitResult.ok,
        query := fun q =>
          if q = relaxedQuery "AmazonEC2" { NewResource with
              id := "aws_instance.web", resourceType := "aws_instance",
              provider := "aws", region := "us-east-1", size := "m1.small" } then
            QueryResult.ok [PriceEntry.withTerms [some [⟨UsdField.amount 3⟩]]]
          else QueryResult.ok [] }
      readyState
      { NewResource with
        id := "aws_instance.web", resourceType := "aws_instance",
        provider := "aws", region := "us-east-1", size := "m1.small" }
      "AmazonEC2" (buildEC2Filters "m1.small" "us-east-1")).1
    (by decide) (by decide)).2.1
    [PriceEntry.withTerms [some [⟨UsdField.amount 3⟩]]] 3
    (by decide) (by decide) (by decide) (by decide) |>.1

/-- The quantity-weighted monthly amount one resource contributes to every
breakdown mapping. -/
def mAmt (res : Resource) : ℚ :=
  res.monthlyPrice * (res.quantity : ℚ)

/-- A keyed breakdown fold: add `amt res` at `key res` for every resource. -/
def bdFold (key : Resource → String) (amt : Resource → ℚ) (l : List Resource)
    (m : List (String × ℚ)) : List (String × ℚ) :=
  l.foldl (fun m res => mapAdd m (key res) (amt res)) m

/-- The per-resource tag fold: add `amt` at `(key, value)` for every tag pair. -/
def tagFold1 (amt : ℚ) (ts : List (String × String))
    (m : List (String × List (String × ℚ))) : List (String × List (String × ℚ)) :=
  ts.foldl (fun m kv => tagAdd m kv.1 kv.2 amt) m

/-- The whole tag-breakdown fold over a resource list. -/
def tagFoldAll (l : List Resource) (m : List (String × List (String × ℚ))) :
    List (String × List (String × ℚ)) :=
  l.foldl (fun m res => tagFold1 (mAmt res) res.tags m) m

/-- Equality of the three totals and four breakdown mappings of two reports. -/
def sameAccumulators (a b : Report) : Prop :=
  a.totalHourly = b.totalHourly ∧ a.totalMonthly = b.totalMonthly ∧
  a.totalYearly = b.totalYearly ∧ a.byProvider = b.byProvider ∧
  a.byResourceType = b.byResourceType ∧ a.byRegion = b.byRegion ∧ a.byTag = b.byTag

theorem foldl_accumulate_resources :
    ∀ (l : List Resource) (a : Report),
      (l.foldl Report.accumulate a).resources = a.resources := by
  intro l
  induction l with
  | nil => intro a; rfl
  | cons hd tl ih => intro a; rw [List.foldl_cons, ih]; rfl

theorem foldl_accumulate_totalHourly :
    ∀ (l : List Resource) (a : Report),
      (l.foldl Report.accumulate a).totalHourly =
        a.totalHourly + (l.map (fun res => res.hourlyPrice * (res.quantity : ℚ))).sum := by
  intro l
  induction l with
  | nil => intro a; simp
  | cons hd tl ih =>
      intro a
      rw [List.foldl_cons, ih]
      show (a.totalHourly + hd.hourlyPrice * (hd.quantity : ℚ)) + _ = _
      simp [add_assoc]

theorem foldl_accumulate_totalMonthly :
    ∀ (l : List Resource) (a : Report),
      (l.foldl Report.accumulate a).totalMonthly =
        a.totalMonthly + (l.map (fun res => res.monthlyPrice * (res.quantity : ℚ))).sum := by
  intro l
  induction l with
  | nil => intro a; simp
  | cons hd tl ih =>
      intro a
      rw [List.foldl_cons, ih]
      show (a.totalMonthly + hd.monthlyPrice * (hd.quantity : ℚ)) + _ = _
      simp [add_assoc]

theorem foldl_accumulate_totalYearly :
    ∀ (l : List Resource) (a : Report),
      (l.foldl Report.accumulate a).totalYearly =
        a.totalYearly + (l.map (fun res => res.yearlyPrice * (res.quantity : ℚ))).sum := by
  intro l
  induction l with
  | nil => intro a; simp
  | cons hd tl ih =>
      intro a
      rw [List.foldl_cons, ih]
      show (a.totalYearly + hd.yearlyPrice * (hd.quantity : ℚ)) + _ = _
      simp [add_assoc]

theorem foldl_accumulate_byProvider :
    ∀ (l : List Resource) (a : Report),
      (l.foldl Report.accumulate a).byProvider =
        bdFold (fun res => res.provider) mAmt l a.byProvider := by
  intro l
  induction l with
  | nil => intro a; rfl
  | cons hd tl ih => intro a; rw [List.foldl_cons, ih]; rfl

theorem foldl_accumulate_byResourceType :
    ∀ (l : List Resource) (a : Report),
      (l.foldl Report.accumulate a).byResourceType =
        bdFold (fun res => res.resourceType) mAmt l a.byResourceType := by
  intro l
  induction l with
  | nil => intro a; rfl
  | cons hd tl ih => intro a; rw [List.foldl_cons, ih]; rfl

theorem foldl_accumulate_byRegion :
    ∀ (l : List Resource) (a : Report),
      (l.foldl Report.accumulate a).byRegion =
        bdFold (fun res => res.region) mAmt l a.byRegion := by
  intro l
  induction l with
  | nil => intro a; rfl
  | cons hd tl ih => intro a; rw [List.foldl_cons, ih]; rfl

theorem foldl_accumulate_byTag :
    ∀ (l : List Resource) (a : Report),
      (l.foldl Report.accumulate a).byTag = tagFoldAll l a.byTag := by
  intro l
  induction l with
  | nil => intro a; rfl
  | cons hd tl ih => intro a; rw [List.foldl_cons, ih]; rfl

theorem bdFold_getD (key : Resource → String) (amt : Resource → ℚ) :
    ∀ (l : List Resource) (m : List (String × ℚ)) (k : String),
      (lookupA (bdFold key amt l m) k).getD 0 =
        (lookupA m k).getD 0 +
          ((l.filter (fun r => decide (key r = k))).map amt).sum := by
  intro l
  induction l with
  | nil => intro m k; simp [bdFold]
  | cons hd tl ih =>
      intro m k
      show (lookupA (bdFold key amt tl (mapAdd m (key hd) (amt hd))) k).getD 0 = _
      rw [ih]
      by_cases hk : key hd = k
      · subst hk
        rw [lookupA_mapAdd_self]
        simp [add_assoc]
      · rw [lookupA_mapAdd_other _ _ _ _ (fun hh => hk hh.symm)]
        simp [hk]

theorem bdFold_isSome (key : Resource → String) (amt : Resource → ℚ) :
    ∀ (l : List Resource) (m : List (String × ℚ)) (k : String),
      (lookupA (bdFold key amt l m) k).isSome =
        ((lookupA m k).isSome || l.any (fun r => decide (key r = k))) := by
  intro l
  induction l with
  | nil => intro m k; simp [bdFold]
  | cons hd tl ih =>
      intro m k
      show (lookupA (bdFold key amt tl (mapAdd m (key hd) (amt hd))) k).isSome = _
      rw [ih]
      by_cases hk : key hd = k
      · subst hk
        rw [lookupA_mapAdd_self]
        simp
      · rw [lookupA_mapAdd_other _ _ _ _ (fun hh => hk hh.symm)]
        simp [hk, Bool.or_assoc]

theorem any_perm {α : Type} {l l' : List α} (h : l.Perm l') (p : α → Bool) :
    l.any p = l'.any p := by
  cases hx : l'.any p with
  | true =>
      rw [List.any_eq_true] at hx ⊢
      obtain ⟨x, hm, hp⟩ := hx
      exact ⟨x, h.mem_iff.2 hm, hp⟩
  | false =>
      rw [List.any_eq_false] at hx ⊢
      intro x hm
      exact hx x (h.mem_iff.1 hm)

theorem option_rat_eq {o₁ o₂ : Option ℚ} (h₁ : o₁.isSome = o₂.isSome)
    (h₂ : o₁.getD 0 = o₂.getD 0) : o₁ = o₂ := by
  cases o₁ with
  | none => cases o₂ with
      | none => rfl
      | some b => simp at h₁
  | some a => cases o₂ with
      | none => simp at h₁
      | some b => simp at h₂; rw [h₂]

theorem bdFold_lookup_perm (key : Resource → String) (amt : Resource → ℚ)
    {l l' : List Resource} (h : l.Perm l') (m : List (String × ℚ)) (k : String) :
    lookupA (bdFold key amt l m) k = lookupA (bdFold key amt l' m) k := by
  apply option_rat_eq
  · rw [bdFold_isSome, bdFold_isSome, any_perm h]
  · rw [bdFold_getD, bdFold_getD,
      List.Perm.sum_eq (List.Perm.map amt (List.Perm.filter _ h))]

theorem lookupTag_cons_hit {kh k v : String} {inner : List (String × ℚ)}
    {tl : List (String × List (String × ℚ))} (h : kh = k) :
    lookupTag ((kh, inner) :: tl) k v = lookupA inner v := by
  simp [lookupTag, lookupA, h]

theorem lookupTag_cons_skip {kh k v : String} {inner : List (String × ℚ)}
    {tl : List (String × List (String × ℚ))} (h : ¬kh = k) :
    lookupTag ((kh, inner) :: tl) k v = lookupTag tl k v := by
  simp [lookupTag, lookupA, h]

theorem lookupTag_tagAdd_getD (k0 v0 : String) (amt : ℚ) (k v : String) :
    ∀ m : List (String × List (String × ℚ)),
      (lookupTag (tagAdd m k0 v0 amt) k v).getD 0 =
        (lookupTag m k v).getD 0 + (if k0 = k ∧ v0 = v then amt else 0) := by
  intro m
  induction m with
  | nil =>
      by_cases hk : k0 = k
      · subst hk
        by_cases hv : v0 = v
        · subst hv
          simp [tagAdd, lookupTag, lookupA]
        · simp [tagAdd, lookupTag, lookupA, hv]
      · simp [tagAdd, lookupTag, lookupA, hk]
  | cons hd tl ih =>
      obtain ⟨kh, inner⟩ := hd
      by_cases hx : kh = k0
      · simp only [tagAdd, if_pos hx]
        by_cases hk : kh = k
        · rw [lookupTag_cons_hit hk, lookupTag_cons_hit hk]
          by_cases hv : v0 = v
          · subst hv
            rw [lookupA_mapAdd_self]
            have hcond : k0 = k ∧ v0 = v0 := ⟨hx ▸ hk, rfl⟩
            rw [if_pos hcond]
            rfl
          · have hv2 : v ≠ v0 := fun hh => hv hh.symm
            rw [lookupA_mapAdd_other inner v0 v amt hv2]
            simp [hv]
        · rw [lookupTag_cons_skip hk, lookupTag_cons_skip hk]
          have hcond : ¬(k0 = k ∧ v0 = v) := fun hh => hk (hx.trans hh.1)
          rw [if_neg hcond]
          simp
      · simp only [tagAdd, if_neg hx]
        by_cases hk : kh = k
        · rw [lookupTag_cons_hit hk, lookupTag_cons_hit hk]
          have hcond : ¬(k0 = k ∧ v0 = v) := fun hh => hx (hk.trans hh.1.symm)
          rw [if_neg hcond]
          simp
        · rw [lookupTag_cons_skip hk, lookupTag_cons_skip hk, ih]

theorem lookupTag_tagAdd_isSome (k0 v0 : String) (amt : ℚ) (k v : String) :
    ∀ m : List (String × List (String × ℚ)),
      (lookupTag (tagAdd m k0 v0 amt) k v).isSome =
        ((lookupTag m k v).isSome || decide (k0 = k ∧ v0 = v)) := by
  intro m
  induction m with
  | nil =>
      by_cases hk : k0 = k
      · subst hk
        by_cases hv : v0 = v
        · subst hv
          simp [tagAdd, lookupTag, lookupA]
        · simp [tagAdd, lookupTag, lookupA, hv]
      · simp [tagAdd, lookupTag, lookupA, hk]
  | cons hd tl ih =>
      obtain ⟨kh, inner⟩ := hd
      by_cases hx : kh = k0
      · simp only [tagAdd, if_pos hx]
        by_cases hk : kh = k
        · rw [lookupTag_cons_hit hk, lookupTag_cons_hit hk]
          by_cases hv : v0 = v
          · subst hv
            rw [lookupA_mapAdd_self]
            have hcond : k0 = k ∧ v0 = v0 := ⟨hx ▸ hk, rfl⟩
            simp [hcond]
          · have hv2 : v ≠ v0 := fun hh => hv hh.symm
            rw [lookupA_mapAdd_other inner v0 v amt hv2]
            simp [hv]
        · rw [lookupTag_cons_skip hk, lookupTag_cons_skip hk]
          have hcond : ¬(k0 = k ∧ v0 = v) := fun hh => hk (hx.trans hh.1)
          simp [hcond]
      · simp only [tagAdd, if_neg hx]
        by_cases hk : kh = k
        · rw [lookupTag_cons_hit hk, lookupTag_cons_hit hk]
          have hcond : ¬(k0 = k ∧ v0 = v) := fun hh => hx (hk.trans hh.1.symm)
          simp [hcond]
        · rw [lookupTag_cons_skip hk, lookupTag_cons_skip hk, ih]

theorem tagFold1_getD (amt : ℚ) (k v : String) :
    ∀ (ts : List (String × String)) (m : List (String × List (String × ℚ))),
      (lookupTag (tagFold1 amt ts m) k v).getD 0 =
        (lookupTag m k v).getD 0 +
          ((ts.countP (fun kv => decide (kv = (k, v)))) : ℚ) * amt := by
  intro ts
  induction ts with
  | nil => intro m; simp [tagFold1]
  | cons hd rest ih =>
      intro m
      obtain ⟨k0, v0⟩ := hd
      show (lookupTag (tagFold1 amt rest (tagAdd m k0 v0 amt)) k v).getD 0 = _
      rw [ih, lookupTag_tagAdd_getD]
      by_cases hc : k0 = k ∧ v0 = v
      · have hp : ((k0, v0) : String × String) = (k, v) := by
          rw [hc.1, hc.2]
        rw [if_pos hc]
        rw [List.countP_cons_of_pos _ _ (by simp [hp])]
        push_cast
        ring
      · have hp : ¬(((k0, v0) : String × String) = (k, v)) := by
          intro hh
          exact hc ⟨congrArg Prod.fst hh, congrArg Prod.snd hh⟩
        rw [if_neg hc]
        rw [List.countP_cons_of_neg _ _ (by simp [hp])]
        ring

theorem tagFold1_isSome (amt : ℚ) (k v : String) :
    ∀ (ts : List (String × String)) (m : List (String × List (String × ℚ))),
      (lookupTag (tagFold1 amt ts m) k v).isSome =
        ((lookupTag m k v).isSome || ts.any (fun kv => decide (kv = (k, v)))) := by
  intro ts
  induction ts with
  | nil => intro m; simp [tagFold1]
  | cons hd rest ih =>
      intro m
      obtain ⟨k0, v0⟩ := hd
      show (lookupTag (tagFold1 amt rest (tagAdd m k0 v0 amt)) k v).isSome = _
      rw [ih, lookupTag_tagAdd_isSome]
      by_cases hc : k0 = k ∧ v0 = v
      · have hp : ((k0, v0) : String × String) = (k, v) := by
          rw [hc.1, hc.2]
        simp [hc, hp, Bool.or_assoc, Bool.or_comm]
      · have hp : ¬(((k0, v0) : String × String) = (k, v)) := by
          intro hh
          exact hc ⟨congrArg Prod.fst hh, congrArg Prod.snd hh⟩
        simp [hc, hp, Bool.or_assoc]

theorem tagFoldAll_getD (k v : String) :
    ∀ (l : List Resource) (m : List (String × List (String × ℚ))),
      (lookupTag (tagFoldAll l m) k v).getD 0 =
        (lookupTag m k v).getD 0 +
          (l.map (fun res =>
            ((res.tags.countP (fun kv => decide (kv = (k, v)))) : ℚ) * mAmt res)).sum := by
  intro l
  induction l with
  | nil => intro m; simp [tagFoldAll]
  | cons hd tl ih =>
      intro m
      show (lookupTag (tagFoldAll tl (tagFold1 (mAmt hd) hd.tags m)) k v).getD 0 = _
      rw [ih, tagFold1_getD]
      simp [add_assoc]

theorem tagFoldAll_isSome (k v : String) :
    ∀ (l : List Resource) (m : List (String × List (String × ℚ))),
      (lookupTag (tagFoldAll l m) k v).isSome =
        ((lookupTag m k v).isSome ||
          l.any (fun res => res.tags.any (fun kv => decide (kv = (k, v))))) := by
  intro l
  induction l with
  | nil => intro m; simp [tagFoldAll]
  | cons hd tl ih =>
      intro m
      show (lookupTag (tagFoldAll tl (tagFold1 (mAmt hd) hd.tags m)) k v).isSome = _
      rw [ih, tagFold1_isSome]
      simp [Bool.or_assoc]

theorem tagFoldAll_lookup_perm {l l' : List Resource} (h : l.Perm l')
    (m : List (String × List (String × ℚ))) (k v : String) :
    lookupTag (tagFoldAll l m) k v = lookupTag (tagFoldAll l' m) k v := by
  apply option_rat_eq
  · rw [tagFoldAll_isSome, tagFoldAll_isSome, any_perm h]
  · rw [tagFoldAll_getD, tagFoldAll_getD, List.Perm.sum_eq (List.Perm.map _ h)]

theorem reset_congr {a b : Report} (h : a.resources = b.resources) :
    a.reset = b.reset := by
  unfold Report.reset
  rw [h]

theorem summarize_resources (r : Report) : r.summarize.resources = r.resources := by
  unfold Report.summarize
  rw [foldl_accumulate_resources]
  rfl

theorem sameAccumulators_symm {a b : Report} (h : sameAccumulators a b) :
    sameAccumulators b a := by
  obtain ⟨h1, h2, h3, h4, h5, h6, h7⟩ := h
  exact ⟨h1.symm, h2.symm, h3.symm, h4.symm, h5.symm, h6.symm, h7.symm⟩

theorem addResource_accumulate_step {a b : Report} (res : Resource)
    (h : sameAccumulators a b) :
    sameAccumulators (a.addResource res) (b.accumulate res) := by
  obtain ⟨h1, h2, h3, h4, h5, h6, h7⟩ := h
  refine ⟨?_, ?_, ?_, ?_, ?_, ?_, ?_⟩
  · show a.totalHourly + _ = b.totalHourly + _
    rw [h1]
  · show a.totalMonthly + _ = b.totalMonthly + _
    rw [h2]
  · show a.totalYearly + _ = b.totalYearly + _
    rw [h3]
  · show mapAdd a.byProvider _ _ = mapAdd b.byProvider _ _
    rw [h4]
  · show mapAdd a.byResourceType _ _ = mapAdd b.byResourceType _ _
    rw [h5]
  · show mapAdd a.byRegion _ _ = mapAdd b.byRegion _ _
    rw [h6]
  · show res.tags.foldl _ a.byTag = res.tags.foldl _ b.byTag
    rw [h7]

theorem foldl_addResource_agree :
    ∀ (l : List Resource) (a b : Report), sameAccumulators a b →
      sameAccumulators (l.foldl Report.addResource a) (l.foldl Report.accumulate b) := by
  intro l
  induction l with
  | nil => intro a b h; exact h
  | cons hd tl ih =>
      intro a b h
      exact ih _ _ (addResource_accumulate_step hd h)

theorem foldl_addResource_resources :
    ∀ (l : List Resource) (a : Report),
      (l.foldl Report.addResource a).resources = a.resources ++ l := by
  intro l
  induction l with
  | nil => intro a; simp
  | cons hd tl ih =>
      intro a
      rw [List.foldl_cons, ih]
      show (a.resources ++ [hd]) ++ tl = _
      simp

/-- C5: `Summarize` fully replaces the accumulator state — it is determined by
the resource list alone, so two reports with the same resource list summarize
to the same report regardless of prior totals or breakdowns; it is idempotent;
its totals and all four breakdown mappings coincide with the accumulator state
of a sequence of `AddResource` calls over the same list starting from an empty
report; and for any permutation of the resource list the totals are equal and
the breakdown mappings agree on every key (and every tag key/value pair) —
they are keyed, not ordered. -/
theorem summarize_idempotent_replaces :
    (∀ r : Report, r.summarize.summarize = r.summarize) ∧
    (∀ r r2 : Report, r2.resources = r.resources → r.summarize = r2.summarize) ∧
    (∀ r : Report,
      sameAccumulators r.summarize (r.resources.foldl Report.addResource NewReport) ∧
      (r.resources.foldl Report.addResource NewReport).resources = r.resources) ∧
    (∀ (r : Report) (l' : List Resource), r.resources.Perm l' →
      r.summarize.totalHourly = ({ r with resources := l' } : Report).summarize.totalHourly ∧
      r.summarize.totalMonthly = ({ r with resources := l' } : Report).summarize.totalMonthly ∧
      r.summarize.totalYearly = ({ r with resources := l' } : Report).summarize.totalYearly ∧
      (∀ k, lookupA r.summarize.byProvider k =
        lookupA ({ r with resources := l' } : Report).summarize.byProvider k) ∧
      (∀ k, lookupA r.summarize.byResourceType k =
        lookupA ({ r with resources := l' } : Report).summarize.byResourceType k) ∧
      (∀ k, lookupA r.summarize.byRegion k =
        lookupA ({ r with resources := l' } : Report).summarize.byRegion k) ∧
      (∀ k v, lookupTag r.summarize.byTag k v =
        lookupTag ({ r with resources := l' } : Report).summarize.byTag k v)) := by
  refine ⟨?_, ?_, ?_, ?_⟩
  · intro r
    show r.summarize.resources.foldl Report.accumulate r.summarize.reset = r.summarize
    rw [summarize_resources, reset_congr (summarize_resources r)]
    rfl
  · intro r r2 h
    show r.resources.foldl Report.accumulate r.reset =
      r2.resources.foldl Report.accumulate r2.reset
    rw [h, reset_congr h.symm]
  · intro r
    constructor
    · apply sameAccumulators_symm
      exact foldl_addResource_agree r.resources NewReport r.reset
        ⟨rfl, rfl, rfl, rfl, rfl, rfl, rfl⟩
    · rw [foldl_addResource_resources]
      rfl
  · intro r l' h
    refine ⟨?_, ?_, ?_, ?_, ?_, ?_, ?_⟩
    · show (r.resources.foldl Report.accumulate r.reset).totalHourly =
        (l'.foldl Report.accumulate _).totalHourly
      rw [foldl_accumulate_totalHourly, foldl_accumulate_totalHourly,
        List.Perm.sum_eq (List.Perm.map _ h)]
      rfl
    · show (r.resources.foldl Report.accumulate r.reset).totalMonthly =
        (l'.foldl Report.accumulate _).totalMonthly
      rw [foldl_accumulate_totalMonthly, foldl_accumulate_totalMonthly,
        List.Perm.sum_eq (List.Perm.map _ h)]
      rfl
    · show (r.resources.foldl Report.accumulate r.reset).totalYearly =
        (l'.foldl Report.accumulate _).totalYearly
      rw [foldl_accumulate_totalYearly, foldl_accumulate_totalYearly,
        List.Perm.sum_eq (List.Perm.map _ h)]
      rfl
    · intro k
      show lookupA (r.resources.foldl Report.accumulate r.reset).byProvider k =
        lookupA (l'.foldl Report.accumulate _).byProvider k
      rw [foldl_accumulate_byProvider, foldl_accumulate_byProvider]
      exact bdFold_lookup_perm _ _ h _ k
    · intro k
      show lookupA (r.resources.foldl Report.accumulate r.reset).byResourceType k =
        lookupA (l'.foldl Report.accumulate _).byResourceType k
      rw [foldl_accumulate_byResourceType, foldl_accumulate_byResourceType]
      exact bdFold_lookup_perm _ _ h _ k
    · intro k
      show lookupA (r.resources.foldl Report.accumulate r.reset).byRegion k =
        lookupA (l'.foldl Report.accumulate _).byRegion k
      rw [foldl_accumulate_byRegion, foldl_accumulate_byRegion]
      exact bdFold_lookup_perm _ _ h _ k
    · intro k v
      show lookupTag (r.resources.foldl Report.accumulate r.reset).byTag k v =
        lookupTag (l'.foldl Report.accumulate _).byTag k v
      rw [foldl_accumulate_byTag, foldl_accumulate_byTag]
      exact tagFoldAll_lookup_perm h _ k v

/-- A tagged, priced sample resource for concrete aggregation checks. -/
def wresA : Resource :=
  { NewResource with
    id := "a"
    provider := "aws"
    region := "r1"
    monthlyPrice := 3
    quantity := 2
    tags := [("env", "prod")] }

/-- A second sample resource with a different provider. -/
def wresB : Resource :=
  { NewResource with
    id := "b"
    provider := "gcp"
    region := "r2"
    monthlyPrice := 5 }

/-- A report with stale accumulator state, for checking full replacement. -/
def wreport : Report :=
  { NewReport with
    resources := [wresA, wresB]
    totalMonthly := 99
    byProvider := [("stale", 1)] }

/-- Witness for C5 at concrete inputs: summarizing a report with stale totals
and a stale breakdown entry gives the same report as summarizing a fresh
report over the same two resources, and the provider breakdown looks up
equally after swapping the two resources. -/
theorem summarize_idempotent_replaces_witness :
    wreport.summarize = ({ NewReport with resources := [wresA, wresB] } : Report).summarize ∧
    lookupA wreport.summarize.byProvider "aws" =
      lookupA ({ wreport with resources := [wresB, wresA] } : Report).summarize.byProvider
        "aws" :=
  ⟨summarize_idempotent_replaces.2.1 wreport
      { NewReport with resources := [wresA, wresB] } rfl,
   (summarize_idempotent_replaces.2.2.2 wreport [wresB, wresA]
      (List.Perm.swap wresB wresA [])).2.2.2.1 "aws"⟩

theorem store_self : ∀ (m : List (String × Int)) (k : String) (p : Int),
    lookupA (store m k p) k = some p := by
  intro m k p
  induction m with
  | nil => simp [store, lookupA]
  | cons hd tl ih =>
      obtain ⟨k0, p0⟩ := hd
      by_cases h0 : k0 = k
      · subst h0
        simp [store, lookupA]
      · simp [store, lookupA, h0, ih]

theorem store_other : ∀ (m : List (String × Int)) (k k' : String) (p : Int),
    k' ≠ k → lookupA (store m k p) k' = lookupA m k' := by
  intro m k k' p h
  have hne : ¬(k = k') := fun hh => h hh.symm
  induction m with
  | nil => simp [store, lookupA, hne]
  | cons hd tl ih =>
      obtain ⟨k0, p0⟩ := hd
      by_cases h0 : k0 = k
      · subst h0
        simp [store, lookupA, hne]
      · simp only [store, if_neg h0, lookupA]
        by_cases h1 : k0 = k'
        · simp [h1]
        · simp [h1, ih]

theorem store_entries : ∀ (m : List (String × Int)) (k : String) (p : Int),
    ∀ e ∈ store m k p, e = (k, p) ∨ e ∈ m := by
  intro m k p
  induction m with
  | nil =>
      intro e he
      simp [store] at he
      exact Or.inl he
  | cons hd tl ih =>
      intro e he
      obtain ⟨k0, p0⟩ := hd
      by_cases h0 : k0 = k
      · subst h0
        simp only [store, if_pos rfl] at he
        rcases List.mem_cons.1 he with h | h
        · exact Or.inl h
        · exact Or.inr (List.mem_cons_of_mem _ h)
      · simp only [store, if_neg h0] at he
        rcases List.mem_cons.1 he with h | h
        · exact Or.inr (List.mem_cons.2 (Or.inl h))
        · rcases ih e h with h1 | h1
          · exact Or.inl h1
          · exact Or.inr (List.mem_cons_of_mem _ h1)

theorem store_keys : ∀ (m : List (String × Int)) (k : String) (p : Int),
    ∀ x ∈ (store m k p).map Prod.fst, x ∈ m.map Prod.fst ∨ x = k := by
  intro m k p x hx
  rcases List.mem_map.1 hx with ⟨e, he, hfst⟩
  rcases store_entries m k p e he with h | h
  · right
    rw [← hfst, h]
  · left
    exact hfst ▸ List.mem_map_of_mem Prod.fst h

theorem store_keys_nodup : ∀ (m : List (String × Int)) (k : String) (p : Int),
    (m.map Prod.fst).Nodup → ((store m k p).map Prod.fst).Nodup := by
  intro m k p
  induction m with
  | nil => intro _; simp [store]
  | cons hd tl ih =>
      intro hn
      obtain ⟨k0, p0⟩ := hd
      simp only [List.map_cons, List.nodup_cons] at hn
      by_cases h0 : k0 = k
      · subst h0
        simp only [store]
        simp only [if_true]
        simpa using hn
      · simp only [store, if_neg h0, List.map_cons, List.nodup_cons]
        refine ⟨?_, ih hn.2⟩
        intro hmem
        rcases store_keys tl k p k0 hmem with h | h
        · exact hn.1 h
        · exact h0 h

theorem listStarts_trans : ∀ (a b c : List Char),
    listStarts a b = true → listStarts b c = true → listStarts a c = true := by
  intro a
  induction a with
  | nil =>
      intro b c hab hbc
      cases b with
      | nil =>
          cases c with
          | nil => rfl
          | cons ch ct => simp [listStarts] at hbc
      | cons bh bt => simp [listStarts] at hab
  | cons ah at' ih =>
      intro b c hab hbc
      cases c with
      | nil => rfl
      | cons ch ct =>
          cases b with
          | nil => simp [listStarts] at hbc
          | cons bh bt =>
              simp only [listStarts, Bool.and_eq_true, decide_eq_true_eq] at hab hbc
              refine ?_
              simp only [listStarts, Bool.and_eq_true, decide_eq_true_eq]
              exact ⟨hab.1.trans hbc.1, ih bt ct hab.2 hbc.2⟩

theorem strEndsWith_trans (n s1 s2 : String) (h1 : strEndsWith n s1 = true)
    (h2 : strEndsWith s1 s2 = true) : strEndsWith n s2 = true := by
  unfold strEndsWith listEnds at h1 h2 ⊢
  exact listStarts_trans _ _ _ h1 h2

/-- Whether one pass-1 iteration for pattern `pat` on attribute `a` stores the
key `k`: the name matches the pattern and the value is the non-empty plain
string `k`. -/
def patWrites (pat : String × Int) (a : String × AttrValue) (k : String) : Prop :=
  (a.1 = pat.1 ∨ strEndsWith a.1 pat.1 = true) ∧ getStr a.2 = some k ∧ k ≠ ""

theorem passPatStep_no_write (pat : String × Int) (a : String × AttrValue)
    (m : List (String × Int)) (k : String) (h : ¬patWrites pat a k) :
    lookupA (passPatStep pat m a) k = lookupA m k := by
  unfold passPatStep
  by_cases hm : (a.1 = pat.1 || strEndsWith a.1 pat.1) = true
  · rw [if_pos hm]
    rcases hv : getStr a.2 with _ | v
    · rfl
    · dsimp only
      by_cases hvne : v ≠ ""
      · rw [if_pos hvne]
        have hvk : v ≠ k := by
          intro hh
          subst hh
          exact h ⟨by simpa [Bool.or_eq_true, decide_eq_true_eq] using hm, hv, hvne⟩
        exact store_other m v k pat.2 (fun hh => hvk hh.symm)
      · rw [if_neg hvne]
  · rw [if_neg hm]

theorem passPatStep_write (pat : String × Int) (a : String × AttrValue)
    (m : List (String × Int)) (k : String) (h : patWrites pat a k) :
    lookupA (passPatStep pat m a) k = some pat.2 := by
  obtain ⟨hm, hv, hk⟩ := h
  unfold passPatStep
  have hm2 : (a.1 = pat.1 || strEndsWith a.1 pat.1) = true := by
    simp [Bool.or_eq_true, decide_eq_true_eq]
    exact hm
  rw [if_pos hm2, hv]
  dsimp only
  rw [if_pos hk]
  exact store_self m k pat.2

theorem passPat_no_write (pat : String × Int) (k : String) :
    ∀ (attrs : List (String × AttrValue)) (m : List (String × Int)),
      (∀ a ∈ attrs, ¬patWrites pat a k) →
      lookupA (passPat attrs pat m) k = lookupA m k := by
  intro attrs
  induction attrs with
  | nil => intro m _; rfl
  | cons a t ih =>
      intro m h
      show lookupA (passPat t pat (passPatStep pat m a)) k = _
      rw [ih _ (fun x hx => h x (List.mem_cons_of_mem a hx)),
        passPatStep_no_write pat a m k (h a (List.mem_cons_self a t))]

theorem passPat_write (pat : String × Int) (k : String) :
    ∀ (attrs : List (String × AttrValue)) (m : List (String × Int)),
      (∃ a ∈ attrs, patWrites pat a k) →
      lookupA (passPat attrs pat m) k = some pat.2 := by
  intro attrs
  induction attrs with
  | nil =>
      intro m h
      obtain ⟨a, ha, _⟩ := h
      simp at ha
  | cons a t ih =>
      intro m h
      show lookupA (passPat t pat (passPatStep pat m a)) k = some pat.2
      by_cases ht : ∃ x ∈ t, patWrites pat x k
      · exact ih _ ht
      · have hwa : patWrites pat a k := by
          obtain ⟨x, hx, hw⟩ := h
          rcases List.mem_cons.1 hx with h1 | h1
          · exact h1 ▸ hw
          · exact absurd ⟨x, h1, hw⟩ ht
        have hnt : ∀ x ∈ t, ¬patWrites pat x k := by
          intro x hx hw
          exact ht ⟨x, hx, hw⟩
        rw [passPat_no_write pat k t _ hnt, passPatStep_write pat a m k hwa]

/-- Whether one pass-2 iteration on attribute `a` stores the key `k`: the
value is the non-empty plain string `k` and it looks like an instance type. -/
def pass2Writes (a : String × AttrValue) (k : String) : Prop :=
  getStr a.2 = some k ∧ k ≠ "" ∧ looksLikeInstanceType k = true

theorem pass2Step_no_write (a : String × AttrValue) (m : List (String × Int))
    (k : String) (h : ¬pass2Writes a k) :
    lookupA (pass2Step m a) k = lookupA m k := by
  unfold pass2Step
  rcases hv : getStr a.2 with _ | v
  · rfl
  · dsimp only
    by_cases hc : (v ≠ "" && looksLikeInstanceType v) = true
    · rw [if_pos hc]
      have hvk : v ≠ k := by
        intro hh
        subst hh
        simp only [Bool.and_eq_true, decide_eq_true_eq] at hc
        exact h ⟨hv, hc.1, hc.2⟩
      exact store_other m v k _ (fun hh => hvk hh.symm)
    · rw [if_neg hc]

theorem pass2_no_write (k : String) :
    ∀ (attrs : List (String × AttrValue)) (m : List (String × Int)),
      (∀ a ∈ attrs, ¬pass2Writes a k) →
      lookupA (pass2 attrs m) k = lookupA m k := by
  intro attrs
  induction attrs with
  | nil => intro m _; rfl
  | cons a t ih =>
      intro m h
      show lookupA (pass2 t (pass2Step m a)) k = _
      rw [ih _ (fun x hx => h x (List.mem_cons_of_mem a hx)),
        pass2Step_no_write a m k (h a (List.mem_cons_self a t))]

/-- Every candidate entry whose key differs from `V` has priority below 90. -/
def belowTop (V : String) (m : List (String × Int)) : Prop :=
  ∀ e ∈ m, e.1 ≠ V → e.2 < 90

theorem belowTop_store {V : String} {m : List (String × Int)} {k : String} {p : Int}
    (h : belowTop V m) (hp : p < 90 ∨ k = V) : belowTop V (store m k p) := by
  intro e he hne
  rcases store_entries m k p e he with h1 | h1
  · rcases hp with hp | hp
    · rw [h1]
      exact hp
    · rw [h1] at hne
      exact absurd hp hne
  · exact h e h1 hne

theorem passPatStep_below {V : String} (pat : String × Int) (a : String × AttrValue)
    (m : List (String × Int))
    (hcase : pat.2 < 90 ∨ (∀ k, patWrites pat a k → k = V))
    (h : belowTop V m) : belowTop V (passPatStep pat m a) := by
  unfold passPatStep
  by_cases hm : (a.1 = pat.1 || strEndsWith a.1 pat.1) = true
  · rw [if_pos hm]
    rcases hv : getStr a.2 with _ | v
    · exact h
    · dsimp only
      by_cases hvne : v ≠ ""
      · rw [if_pos hvne]
        apply belowTop_store h
        rcases hcase with hc | hc
        · exact Or.inl hc
        · refine Or.inr (hc v ⟨?_, hv, hvne⟩)
          simpa [Bool.or_eq_true, decide_eq_true_eq] using hm
      · rw [if_neg hvne]
        exact h
  · rw [if_neg hm]
    exact h

theorem passPat_below {V : String} (pat : String × Int) :
    ∀ (attrs : List (String × AttrValue)) (m : List (String × Int)),
      (pat.2 < 90 ∨ (∀ a ∈ attrs, ∀ k, patWrites pat a k → k = V)) →
      belowTop V m → belowTop V (passPat attrs pat m) := by
  intro attrs
  induction attrs with
  | nil => intro m _ h; exact h
  | cons a t ih =>
      intro m hcase h
      show belowTop V (passPat t pat (passPatStep pat m a))
      apply ih
      · rcases hcase with hc | hc
        · exact Or.inl hc
        · exact Or.inr (fun x hx => hc x (List.mem_cons_of_mem a hx))
      · apply passPatStep_below pat a m ?_ h
        rcases hcase with hc | hc
        · exact Or.inl hc
        · exact Or.inr (hc a (List.mem_cons_self a t))

theorem pass2Step_below {V : String} (a : String × AttrValue)
    (m : List (String × Int)) (h : belowTop V m) : belowTop V (pass2Step m a) := by
  unfold pass2Step
  rcases hv : getStr a.2 with _ | v
  · exact h
  · dsimp only
    by_cases hc : (v ≠ "" && looksLikeInstanceType v) = true
    · rw [if_pos hc]
      apply belowTop_store h
      left
      split
      · decide
      · decide
    · rw [if_neg hc]
      exact h

theorem pass2_below {V : String} :
    ∀ (attrs : List (String × AttrValue)) (m : List (String × Int)),
      belowTop V m → belowTop V (pass2 attrs m) := by
  intro attrs
  induction attrs with
  | nil => intro m h; exact h
  | cons a t ih =>
      intro m h
      show belowTop V (pass2 t (pass2Step m a))
      exact ih _ (pass2Step_below a m h)

theorem passPatStep_keys_nodup (pat : String × Int) (a : String × AttrValue)
    (m : List (String × Int)) (h : (m.map Prod.fst).Nodup) :
    ((passPatStep pat m a).map Prod.fst).Nodup := by
  unfold passPatStep
  by_cases hm : (a.1 = pat.1 || strEndsWith a.1 pat.1) = true
  · rw [if_pos hm]
    rcases hv : getStr a.2 with _ | v
    · exact h
    · dsimp only
      by_cases hvne : v ≠ ""
      · rw [if_pos hvne]
        exact store_keys_nodup m v pat.2 h
      · rw [if_neg hvne]
        exact h
  · rw [if_neg hm]
    exact h

theorem passPat_keys_nodup (pat : String × Int) :
    ∀ (attrs : List (String × AttrValue)) (m : List (String × Int)),
      (m.map Prod.fst).Nodup → ((passPat attrs pat m).map Prod.fst).Nodup := by
  intro attrs
  induction attrs with
  | nil => intro m h; exact h
  | cons a t ih =>
      intro m h
      exact ih _ (passPatStep_keys_nodup pat a m h)

theorem pass2Step_keys_nodup (a : String × AttrValue) (m : List (String × Int))
    (h : (m.map Prod.fst).Nodup) : ((pass2Step m a).map Prod.fst).Nodup := by
  unfold pass2Step
  rcases hv : getStr a.2 with _ | v
  · exact h
  · dsimp only
    by_cases hc : (v ≠ "" && looksLikeInstanceType v) = true
    · rw [if_pos hc]
      exact store_keys_nodup m v _ h
    · rw [if_neg hc]
      exact h

theorem pass2_keys_nodup :
    ∀ (attrs : List (String × AttrValue)) (m : List (String × Int)),
      (m.map Prod.fst).Nodup → ((pass2 attrs m).map Prod.fst).Nodup := by
  intro attrs
  induction attrs with
  | nil => intro m h; exact h
  | cons a t ih =>
      intro m h
      exact ih _ (pass2Step_keys_nodup a m h)

theorem nodup_keys_val_unique {α : Type} :
    ∀ (m : List (String × α)), (m.map Prod.fst).Nodup →
      ∀ (k : String) (v1 v2 : α), (k, v1) ∈ m → (k, v2) ∈ m → v1 = v2 := by
  intro m
  induction m with
  | nil => intro _ k v1 v2 h1; simp at h1
  | cons hd tl ih =>
      intro hn k v1 v2 h1 h2
      obtain ⟨k0, w0⟩ := hd
      simp only [List.map_cons, List.nodup_cons] at hn
      rcases List.mem_cons.1 h1 with ha | ha
      · rcases List.mem_cons.1 h2 with hb | hb
        · rw [Prod.mk.injEq] at ha hb
          rw [ha.2, hb.2]
        · exfalso
          apply hn.1
          rw [Prod.mk.injEq] at ha
          rw [← ha.1]
          exact List.mem_map_of_mem Prod.fst hb
      · rcases List.mem_cons.1 h2 with hb | hb
        · exfalso
          apply hn.1
          rw [Prod.mk.injEq] at hb
          rw [← hb.1]
          exact List.mem_map_of_mem Prod.fst ha
        · exact ih hn.2 k v1 v2 ha hb

theorem sel_aux (V : String) :
    ∀ (m : List (String × Int)) (b : String × Int),
      (∀ e ∈ m, e.1 ≠ V → e.2 < 90) →
      (∀ e ∈ m, e.1 = V → e.2 = 90) →
      ((V, (90 : Int)) ∈ m ∧ b.2 < 90 ∨ b = (V, 90)) →
      m.foldl (fun best c => if c.2 > best.2 then c else best) b = (V, 90) := by
  intro m
  induction m with
  | nil =>
      intro b _ _ hcase
      rcases hcase with ⟨hm, _⟩ | hb
      · simp at hm
      · exact hb
  | cons e t ih =>
      intro b hlow hV hcase
      rw [List.foldl_cons]
      rcases hcase with ⟨hm, hb⟩ | hb
      · by_cases heV : e.1 = V
        · have he90 : e.2 = 90 := hV e (List.mem_cons_self e t) heV
          have heq : e = (V, 90) := by
            rw [← heV, ← he90]
          have hstep : (if e.2 > b.2 then e else b) = (V, 90) := by
            rw [if_pos (by rw [he90]; exact hb)]
            exact heq
          rw [hstep]
          exact ih (V, 90) (fun x hx => hlow x (List.mem_cons_of_mem e hx))
            (fun x hx => hV x (List.mem_cons_of_mem e hx)) (Or.inr rfl)
        · have helow : e.2 < 90 := hlow e (List.mem_cons_self e t) heV
          have hmem : (V, (90 : Int)) ∈ t := by
            rcases List.mem_cons.1 hm with h | h
            · exfalso
              apply heV
              rw [← h]
            · exact h
          have hblow : (if e.2 > b.2 then e else b).2 < 90 := by
            split
            · exact helow
            · exact hb
          exact ih _ (fun x hx => hlow x (List.mem_cons_of_mem e hx))
            (fun x hx => hV x (List.mem_cons_of_mem e hx)) (Or.inl ⟨hmem, hblow⟩)
      · subst hb
        have hstep : (if e.2 > (90 : Int) then e else ((V, 90) : String × Int)) = (V, 90) := by
          by_cases heV : e.1 = V
          · have he90 : e.2 = 90 := hV e (List.mem_cons_self e t) heV
            rw [if_neg (by rw [he90]; exact lt_irrefl 90)]
          · have helow : e.2 < 90 := hlow e (List.mem_cons_self e t) heV
            rw [if_neg (by exact not_lt.2 (le_of_lt helow))]
        rw [hstep]
        exact ih (V, 90) (fun x hx => hlow x (List.mem_cons_of_mem e hx))
          (fun x hx => hV x (List.mem_cons_of_mem e hx)) (Or.inr rfl)

/-- C2 counterexample: with attributes `instance_type = "t2.micro"` and
`size = "big"`, `FindSizeField` returns `"big"`, not the `instance_type` value
— pass 2 overwrites `t2.micro` down to priority 75 (its SKU-like shape under a
name containing `instance`), below the 80 of the non-SKU-shaped `size` value.
Moreover a value sighted more than once keeps the priority LAST assigned, not
the maximum: alone, `instance_type = "t2.micro"` ends at priority 75, though
it was assigned 100 in pass 1. -/
theorem findSizeField_not_max_priority :
    FindSizeField "aws_instance"
      [("instance_type", AttrValue.str "t2.micro"), ("size", AttrValue.str "big")] = "big" ∧
    ("big" : String) ≠ "t2.micro" ∧
    lookupA (pass2 [("instance_type", AttrValue.str "t2.micro")]
      (pass1 [("instance_type", AttrValue.str "t2.micro")])) "t2.micro" = some 75 := by
  refine ⟨by decide, by decide, by decide⟩

/-- C2 as amended: candidates are deduplicated by value, but a value sighted
more than once keeps the priority LAST assigned (pattern-table order in pass
1, then the pass-2 shape priority), not the maximum. Consequently, for every
attribute map (unique keys) containing `instance_type` with a plain non-empty
string value `V`, `FindSizeField` returns `V` provided `V` does not itself
match the SKU-shape heuristic, no other attribute name ends in `_type`, and no
other attribute carries the value `V`: under those conditions `V` holds the
unique top priority 90 and wins the strict-maximum selection. -/
theorem findSizeField_instance_type_conditional :
    ∀ (rt V : String) (attrs : List (String × AttrValue)),
      (attrs.map Prod.fst).Nodup →
      ("instance_type", AttrValue.str V) ∈ attrs →
      V ≠ "" →
      looksLikeInstanceType V = false →
      (∀ p ∈ attrs, p.1 ≠ "instance_type" → strEndsWith p.1 "_type" = false) →
      (∀ p ∈ attrs, p.1 ≠ "instance_type" → getStr p.2 ≠ some V) →
      FindSizeField rt attrs = V := by
  intro rt V attrs h6 h1 h2 h3 h4 h5
  have hval : ∀ w, ("instance_type", w) ∈ attrs → w = AttrValue.str V :=
    fun w hw => nodup_keys_val_unique attrs h6 "instance_type" w _ hw h1
  have hnameIT : ∀ a ∈ attrs, ∀ k : String,
      (a.1 = "instance_type" ∨ strEndsWith a.1 "_type" = true) →
      getStr a.2 = some k → k = V := by
    intro a ha k hname hg
    have haname : a.1 = "instance_type" := by
      rcases hname with h | h
      · exact h
      · by_contra hni
        rw [h4 a ha hni] at h
        cases h
    have hpair : ("instance_type", a.2) ∈ attrs := by
      rw [← haname]
      exact (Prod.mk.eta (p := a)) ▸ ha
    have ha2 : a.2 = AttrValue.str V := hval a.2 hpair
    rw [ha2] at hg
    simp only [getStr, Option.some.injEq] at hg
    exact hg.symm
  have honly1 : ∀ a ∈ attrs, ∀ k, patWrites ("instance_type", 100) a k → k = V := by
    intro a ha k hw
    obtain ⟨hm, hg, _⟩ := hw
    refine hnameIT a ha k ?_ hg
    rcases hm with h | h
    · exact Or.inl h
    · exact Or.inr (strEndsWith_trans _ _ _ h (by decide))
  have honly2 : ∀ a ∈ attrs, ∀ k, patWrites ("_type", 90) a k → k = V := by
    intro a ha k hw
    obtain ⟨hm, hg, _⟩ := hw
    refine hnameIT a ha k ?_ hg
    rcases hm with h | h
    · refine Or.inr ?_
      rw [h]
      decide
    · exact Or.inr h
  have hnw : ∀ pat : String × Int,
      ¬("instance_type" = pat.1 ∨ strEndsWith "instance_type" pat.1 = true) →
      ∀ a ∈ attrs, ¬patWrites pat a V := by
    intro pat hp a ha hw
    obtain ⟨hm, hg, _⟩ := hw
    have haname : a.1 = "instance_type" := by
      by_contra hni
      exact h5 a ha hni hg
    rw [haname] at hm
    exact hp hm
  have hno2 : ∀ a ∈ attrs, ¬pass2Writes a V := by
    intro a _ hw
    obtain ⟨_, _, hl⟩ := hw
    rw [h3] at hl
    cases hl
  have hp1 : pass1 attrs =
      passPat attrs ("flavor", 40) (passPat attrs ("sku_name", 45)
        (passPat attrs ("bundle_id", 50) (passPat attrs ("node_type", 55)
          (passPat attrs ("_size", 60) (passPat attrs ("_tier", 65)
            (passPat attrs ("_class", 70) (passPat attrs ("instance_class", 75)
              (passPat attrs ("size", 80) (passPat attrs ("machine_type", 85)
                (passPat attrs ("_type", 90)
                  (passPat attrs ("instance_type", 100) []))))))))))) := rfl
  have l1 : lookupA (passPat attrs ("_type", 90)
      (passPat attrs ("instance_type", 100) [])) V = some 90 :=
    passPat_write ("_type", 90) V attrs _
      ⟨("instance_type", AttrValue.str V), h1,
        ⟨Or.inr (show strEndsWith "instance_type" "_type" = true by decide), rfl, h2⟩⟩
  have lookV : lookupA (pass1 attrs) V = some 90 := by
    rw [hp1,
      passPat_no_write ("flavor", 40) V attrs _ (hnw _ (by decide)),
      passPat_no_write ("sku_name", 45) V attrs _ (hnw _ (by decide)),
      passPat_no_write ("bundle_id", 50) V attrs _ (hnw _ (by decide)),
      passPat_no_write ("node_type", 55) V attrs _ (hnw _ (by decide)),
      passPat_no_write ("_size", 60) V attrs _ (hnw _ (by decide)),
      passPat_no_write ("_tier", 65) V attrs _ (hnw _ (by decide)),
      passPat_no_write ("_class", 70) V attrs _ (hnw _ (by decide)),
      passPat_no_write ("instance_class", 75) V attrs _ (hnw _ (by decide)),
      passPat_no_write ("size", 80) V attrs _ (hnw _ (by decide)),
      passPat_no_write ("machine_type", 85) V attrs _ (hnw _ (by decide))]
    exact l1
  have lookV2 : lookupA (pass2 attrs (pass1 attrs)) V = some 90 := by
    rw [pass2_no_write V attrs _ hno2]
    exact lookV
  have hbase : belowTop V ([] : List (String × Int)) := by
    intro e he
    simp at he
  have hbel : belowTop V (pass2 attrs (pass1 attrs)) := by
    apply pass2_below
    rw [hp1]
    apply passPat_below _ attrs _ (Or.inl (by decide))
    apply passPat_below _ attrs _ (Or.inl (by decide))
    apply passPat_below _ attrs _ (Or.inl (by decide))
    apply passPat_below _ attrs _ (Or.inl (by decide))
    apply passPat_below _ attrs _ (Or.inl (by decide))
    apply passPat_below _ attrs _ (Or.inl (by decide))
    apply passPat_below _ attrs _ (Or.inl (by decide))
    apply passPat_below _ attrs _ (Or.inl (by decide))
    apply passPat_below _ attrs _ (Or.inl (by decide))
    apply passPat_below _ attrs _ (Or.inl (by decide))
    apply passPat_below _ attrs _ (Or.inr honly2)
    apply passPat_below _ attrs _ (Or.inr honly1)
    exact hbase
  have hnod : ((pass2 attrs (pass1 attrs)).map Prod.fst).Nodup := by
    apply pass2_keys_nodup
    rw [hp1]
    apply passPat_keys_nodup
    apply passPat_keys_nodup
    apply passPat_keys_nodup
    apply passPat_keys_nodup
    apply passPat_keys_nodup
    apply passPat_keys_nodup
    apply passPat_keys_nodup
    apply passPat_keys_nodup
    apply passPat_keys_nodup
    apply passPat_keys_nodup
    apply passPat_keys_nodup
    apply passPat_keys_nodup
    simp
  have hmem : ((V, (90 : Int)) ∈ pass2 attrs (pass1 attrs)) :=
    lookupA_some_mem _ V (90 : Int) lookV2
  have hVall : ∀ e ∈ pass2 attrs (pass1 attrs), e.1 = V → e.2 = 90 := by
    intro e he heV
    have hpe : (V, e.2) ∈ pass2 attrs (pass1 attrs) := by
      rw [← heV]
      exact (Prod.mk.eta (p := e)) ▸ he
    exact nodup_keys_val_unique _ hnod V e.2 90 hpe hmem
  unfold FindSizeField
  rw [sel_aux V (pass2 attrs (pass1 attrs)) ("", -1) hbel hVall
    (Or.inl ⟨hmem, by decide⟩)]

/-- Witness for C2 at a concrete input: a lone `instance_type` attribute whose
value has no SKU shape is returned. -/
theorem findSizeField_instance_type_conditional_witness :
    FindSizeField "aws_instance" [("instance_type", AttrValue.str "plainvalue")] =
      "plainvalue" :=
  findSizeField_instance_type_conditional "aws_instance" "plainvalue"
    [("instance_type", AttrValue.str "plainvalue")]
    (by decide) (by decide) (by decide) (by decide) (by decide) (by decide)

end CloudCost
